import Mathlib

/-!
Verification of the Forma compiler driver and scanner.

The scanner embedding follows src/scanner.rs: the Rust struct keeps an
index into a Vec of chars; here the index is represented by the list of
characters that remain (the suffix from the index on), so that peek
inspects the head and consume removes it.  Rust i32 / i64 values are
modelled as Int / Nat with explicit range conditions where the code
checks them.  A Rust panic (unwrap / expect / out-of-bounds indexing) is
modelled as an explicit outcome constructor, distinct from returning an
error value.
-/

namespace Forma

/-- LexingError from src/scanner.rs. -/
inductive LexingError where
  | unexpectedCharacter (line : Int)
  | unterminatedString (line : Int)
deriving DecidableEq

/-- TokenType from src/scanner.rs. -/
inductive TokenType where
  -- Single-character tokens
  | leftParen
  | rightParen
  | leftBrace
  | rightBrace
  | comma
  | colon
  | equal
  -- Literals
  | function (name : String)
  | label (name : String)
  | register (name : String)
  | string (content : String)
  | intLiteral (value : Int)
  -- Types
  | i32
  -- Keywords
  | add
  | sub
  | mul
  | div
  | define
  | ret
  | call
  | exit
  | jmp
  | branch
  | icmp
  -- Compare types
  | le
  | eof
deriving DecidableEq

/-- Token from src/scanner.rs. -/
structure Token where
  token_type : TokenType
  line : Int
deriving DecidableEq

/-- Scanner state from src/scanner.rs; the index/chars pair is represented
by the suffix of chars from the index on. -/
structure Scanner where
  line : Int
  rest : List Char
deriving DecidableEq

/-- Scanner::new. -/
def Scanner.new (source : String) : Scanner :=
  { line := 0, rest := source.data }

/-- Rust i64::MAX; integer literals beyond it make str::parse fail and the
unwrap at the IntLiteral site panic. -/
def I64_MAX : Nat := 2 ^ 63 - 1

/-- Numeric value of a list of ASCII digits, as computed by str::parse. -/
def digitsToNat (ds : List Char) : Nat :=
  ds.foldl (fun a c => a * 10 + (c.toNat - 48)) 0

/-- Scanner::scan_identifer (sic): consume while the next char is
alphanumeric, appending to word.  Rust char::is_alphanumeric is the full
Unicode predicate; Char.isAlphanum is its ASCII fragment, which coincides
with it on ASCII sources. -/
def scan_identifer (word : List Char) (rest : List Char) : List Char × List Char :=
  match rest with
  | [] => (word, [])
  | c :: cs =>
    if c.isAlphanum then scan_identifer (word ++ [c]) cs
    else (word, c :: cs)

/-- The digit-collecting loop of the IntLiteral branch of scan_token:
consume while the next char is an ASCII digit. -/
def takeDigits (num : List Char) (rest : List Char) : List Char × List Char :=
  match rest with
  | [] => (num, [])
  | c :: cs =>
    if c.isDigit then takeDigits (num ++ [c]) cs
    else (num, c :: cs)

/-- The string-literal loop of scan_token: consume until a closing quote,
counting newlines.  Returns the line after the literal, the content, and
the rest after the closing quote; none if the input ends first. -/
def scanString (line : Int) (rest : List Char) : Option (Int × List Char × List Char) :=
  match rest with
  | [] => none
  | c :: cs =>
    if c = '"' then some (line, [], cs)
    else
      match scanString (if c = '\n' then line + 1 else line) cs with
      | none => none
      | some (l, content, r) => some (l, c :: content, r)

/-- Result of one Scanner::scan_token call: ok carries the Rust return
Bool, the tokens pushed during the call, and the new scanner state; panic
models the two unwrap panics — on an out-of-range integer literal, and in
consume() when make_token runs with the input exhausted (a reserved word
ending the input). -/
inductive ScanResult where
  | ok (cont : Bool) (emitted : List Token) (st : Scanner)
  | err (e : LexingError)
  | panic
deriving DecidableEq

/-- Whether a word is one of the scanner's reserved words — exactly the
literal arms of the word match in src/scanner.rs lines 201-219.  The
reserved arms call make_token (which consumes one further character);
the catch-all arm pushes a Label directly without consuming. -/
def isKeyword (w : String) : Bool :=
  w = "i32" || w = "add" || w = "sub" || w = "mul" || w = "div" || w = "exit" ||
  w = "define" || w = "ret" || w = "call" || w = "jmp" || w = "cmp" ||
  w = "branch" || w = "le"

/-- The keyword dispatch of the identifier branch of scan_token, from the
match on the collected word in src/scanner.rs: the reserved words map to
their keyword token types, anything else is a Label. -/
def keywordOf (w : String) : TokenType :=
  if w = "i32" then .i32
  else if w = "add" then .add
  else if w = "sub" then .sub
  else if w = "mul" then .mul
  else if w = "div" then .div
  else if w = "exit" then .exit
  else if w = "define" then .define
  else if w = "ret" then .ret
  else if w = "call" then .call
  else if w = "jmp" then .jmp
  else if w = "cmp" then .icmp
  else if w = "branch" then .branch
  else if w = "le" then .le
  else .label w

/-- Whether a suffix of the input begins with a reserved word that runs to
the very end of the input: the identifier branch of scan_token at such a
suffix collects the word, finds it reserved, and calls make_token, whose
unguarded consume() then unwraps None and panics. -/
def keywordAtEnd (sfx : List Char) : Bool :=
  match sfx with
  | [] => false
  | c :: cs =>
    c.isAlpha && isKeyword ⟨(scan_identifer [c] cs).1⟩ &&
      (scan_identifer [c] cs).2.isEmpty

/-- Scanner::scan_token from src/scanner.rs.  Each branch mirrors the Rust
match on the peeked character.  make_token is inlined; it unconditionally
consumes one character before pushing its token.  In the single-character
branches that consumes the peeked character itself.  In the reserved-word
arms of the identifier branch the word is already consumed, so make_token
consumes one character beyond the word: at end of input its consume()
unwraps None and panics, otherwise the following character is swallowed
without being scanned (a swallowed newline does not bump the line
counter). -/
def scan_token (st : Scanner) : ScanResult :=
  match st.rest with
  | [] => .ok false [] st
  | c :: cs =>
    if c = '(' then .ok true [⟨.leftParen, st.line⟩] ⟨st.line, cs⟩
    else if c = ')' then .ok true [⟨.rightParen, st.line⟩] ⟨st.line, cs⟩
    else if c = '{' then .ok true [⟨.leftBrace, st.line⟩] ⟨st.line, cs⟩
    else if c = '}' then .ok true [⟨.rightBrace, st.line⟩] ⟨st.line, cs⟩
    else if c = ',' then .ok true [⟨.comma, st.line⟩] ⟨st.line, cs⟩
    else if c = ':' then .ok true [⟨.colon, st.line⟩] ⟨st.line, cs⟩
    else if c = '=' then .ok true [⟨.equal, st.line⟩] ⟨st.line, cs⟩
    else if c = '"' then
      -- start_line is captured before the loop; the loop consumes up to
      -- and including the closing quote, counting newlines.
      match scanString st.line cs with
      | none => .err (.unterminatedString st.line)
      | some (l, content, r) =>
        .ok true [⟨.string ⟨content⟩, l⟩] ⟨l, r⟩
    else if c = '%' then
      -- vec![self.consume()] keeps the sigil, then scan_identifer extends.
      let p := scan_identifer [c] cs
      .ok true [⟨.register ⟨p.1⟩, st.line⟩] ⟨st.line, p.2⟩
    else if c = '@' then
      -- The sigil is consumed and dropped; the name is the identifier
      -- after it.  Three tokens are pushed: Function, Label, Colon.
      let p := scan_identifer [] cs
      .ok true
        [⟨.function ⟨p.1⟩, st.line⟩, ⟨.label ⟨p.1⟩, st.line⟩, ⟨.colon, st.line⟩]
        ⟨st.line, p.2⟩
    else if c = ' ' ∨ c = '\r' ∨ c = '\t' then .ok true [] ⟨st.line, cs⟩
    else if c = '\n' then .ok true [] ⟨st.line + 1, cs⟩
    else if c.isDigit then
      -- The while loop starts peeking at the current char, so the run
      -- includes c.  parse::<i64>().unwrap() panics beyond i64::MAX.
      let p := takeDigits [] (c :: cs)
      if digitsToNat p.1 ≤ I64_MAX then
        .ok true [⟨.intLiteral (digitsToNat p.1), st.line⟩] ⟨st.line, p.2⟩
      else .panic
    else if c.isAlpha then
      let p := scan_identifer [c] cs
      if isKeyword ⟨p.1⟩ then
        -- make_token: one further consume before the push; panics at the
        -- end of the input, swallows the next character otherwise.
        match p.2 with
        | [] => .panic
        | _ :: rest => .ok true [⟨keywordOf ⟨p.1⟩, st.line⟩] ⟨st.line, rest⟩
      else .ok true [⟨.label ⟨p.1⟩, st.line⟩] ⟨st.line, p.2⟩
    else .err (.unexpectedCharacter st.line)

/-- Result of the scan_tokens driver loop.  fuelOut marks fuel exhaustion
in the bounded model of the Rust while loop; it is proved unreachable for
sufficient fuel. -/
inductive LoopResult where
  | ok (toks : List Token) (st : Scanner)
  | err (e : LexingError)
  | panic
  | fuelOut
deriving DecidableEq

/-- The while loop of Scanner::scan_tokens, with explicit fuel.  Each true
iteration consumes at least one character, so fuel rest.length + 1 always
suffices (scan_loop_no_fuelOut below). -/
def scan_loop (fuel : Nat) (st : Scanner) : LoopResult :=
  match fuel with
  | 0 => .fuelOut
  | fuel + 1 =>
    match scan_token st with
    | .panic => .panic
    | .err e => .err e
    | .ok false toks st2 => .ok toks st2
    | .ok true toks st2 =>
      match scan_loop fuel st2 with
      | .panic => .panic
      | .err e => .err e
      | .fuelOut => .fuelOut
      | .ok toks2 st3 => .ok (toks ++ toks2) st3

/-- Result of Scanner::scan_tokens, with panic and nontermination
explicit. -/
inductive ScanTokensResult where
  | ok (toks : List Token)
  | err (e : LexingError)
  | panic
  | nonterm
deriving DecidableEq

/-- Scanner::scan_tokens from src/scanner.rs: reset the line, run the
scan_token loop, then push one EOF token at the final line. -/
def scan_tokens (st : Scanner) : ScanTokensResult :=
  match scan_loop (st.rest.length + 1) ⟨0, st.rest⟩ with
  | .fuelOut => .nonterm
  | .panic => .panic
  | .err e => .err e
  | .ok toks st2 => .ok (toks ++ [⟨.eof, st2.line⟩])

/-- One step of the maximal-digit-run splitter, folded from the right: the
accumulator holds the digit run that starts right after the current
position and the runs further right. -/
def drStep (c : Char) (acc : List Char × List (List Char)) :
    List Char × List (List Char) :=
  if c.isDigit then (c :: acc.1, acc.2)
  else ([], if acc.1 = [] then acc.2 else acc.1 :: acc.2)

/-- Maximal ASCII-digit runs of a character list, in order: each run is a
digit sequence not preceded and not followed by a digit.  The unfolding
lemmas digit_runs_cons_digit and digit_runs_cons_nondigit below show that
a run is exactly what the IntLiteral branch of scan_token collects with
takeDigits from the first digit of the run. -/
def digit_runs (l : List Char) : List (List Char) :=
  let r := l.foldr drStep ([], [])
  if r.1 = [] then r.2 else r.1 :: r.2

/-! ### The abstract syntax tree

Modelled from the spec: the parser module is declared in src/main.rs but
its source is not in the repository; §6 of the spec fixes the AST the
frontend hands to the backend — functions with named parameters and bodies
of label declarations, arithmetic and comparison assignments, calls,
jumps, branches, returns and exits, with values being virtual registers,
integers, or opaque strings. -/

/-- Modelled from the spec: binary arithmetic operators (§6). -/
inductive BinOp where
  | add
  | sub
  | mul
  | div
deriving DecidableEq

/-- Modelled from the spec: a value is a virtual register reference, an
integer constant, or an opaque string constant (§3). -/
inductive Value where
  | reg (name : String)
  | int (value : Int)
  | str (s : String)
deriving DecidableEq

/-- Modelled from the spec: the statement forms of a function body
(§6). -/
inductive Stmt where
  | label (name : String)
  | binary (dest : String) (op : BinOp) (lhs rhs : Value)
  | cmp (dest : String) (lhs rhs : Value)
  | call (dest : Option String) (callee : String) (args : List Value)
  | jmp (target : String)
  | branch (cond : String) (ifTrue ifFalse : String)
  | ret (value : Option Value)
  | exit (value : Value)
deriving DecidableEq

/-- Modelled from the spec: a function of the AST (§3). -/
structure AstFunction where
  name : String
  params : List String
  body : List Stmt
deriving DecidableEq

/-- Modelled from the spec: a program is a list of functions (§3). -/
structure Ast where
  functions : List AstFunction
deriving DecidableEq

/-! ### The parser

Modelled from the spec: src/main.rs calls parser::Parser::parse, whose
source is not in the repository.  The grammar below follows the textual
surface of §6 over the token stream of src/scanner.rs; since the scanner
follows every Function token by a duplicated Label and Colon token (§9),
the parser absorbs that pair after each Function token it consumes. -/

/-- Modelled from the spec: parse failure; main.rs unwraps it (§7 calls
for reporting instead). -/
inductive ParseError where
  | unexpected
deriving DecidableEq

/-- Drop the Label/Colon pair the scanner duplicates after an at-name
token, when present. -/
def absorbLabelColon (name : String) (ts : List Token) : List Token :=
  match ts with
  | ⟨.label l, _⟩ :: ⟨.colon, _⟩ :: ts2 => if l = name then ts2 else ts
  | _ => ts

/-- Modelled from the spec: parse one value (§6). -/
def parseValue (ts : List Token) : Except ParseError (Value × List Token) :=
  match ts with
  | ⟨.register n, _⟩ :: ts2 => .ok (.reg n, ts2)
  | ⟨.intLiteral v, _⟩ :: ts2 => .ok (.int v, ts2)
  | ⟨.string s, _⟩ :: ts2 => .ok (.str s, ts2)
  | _ => .error .unexpected

/-- Modelled from the spec: the comma-separated arguments after the first
one. -/
def parseArgsRest (fuel : Nat) (ts : List Token) :
    Except ParseError (List Value × List Token) :=
  match fuel with
  | 0 => .error .unexpected
  | fuel + 1 =>
    match ts with
    | ⟨.rightParen, _⟩ :: ts2 => .ok ([], ts2)
    | ⟨.comma, _⟩ :: ts2 =>
      match parseValue ts2 with
      | .error e => .error e
      | .ok (v, ts3) =>
        match parseArgsRest fuel ts3 with
        | .error e => .error e
        | .ok (vs, ts4) => .ok (v :: vs, ts4)
    | _ => .error .unexpected

/-- Modelled from the spec: a parenthesised argument list. -/
def parseArgs (fuel : Nat) (ts : List Token) :
    Except ParseError (List Value × List Token) :=
  match ts with
  | ⟨.leftParen, _⟩ :: ⟨.rightParen, _⟩ :: ts2 => .ok ([], ts2)
  | ⟨.leftParen, _⟩ :: ts2 =>
    match parseValue ts2 with
    | .error e => .error e
    | .ok (v, ts3) =>
      match parseArgsRest fuel ts3 with
      | .error e => .error e
      | .ok (vs, ts4) => .ok (v :: vs, ts4)
  | _ => .error .unexpected

/-- Modelled from the spec: the tail of a call statement, after the call
keyword: the callee at-name (with the duplicated Label/Colon absorbed) and
the argument list. -/
def parseCallTail (fuel : Nat) (dest : Option String) (ts : List Token) :
    Except ParseError (Stmt × List Token) :=
  match ts with
  | ⟨.function f, _⟩ :: ts2 =>
    match parseArgs fuel (absorbLabelColon f ts2) with
    | .error e => .error e
    | .ok (args, ts3) => .ok (.call dest f args, ts3)
  | _ => .error .unexpected

/-- Modelled from the spec: the tail of a typed binary arithmetic
assignment, after the operator keyword. -/
def parseBinaryTail (dest : String) (op : BinOp) (ts : List Token) :
    Except ParseError (Stmt × List Token) :=
  match ts with
  | ⟨.i32, _⟩ :: ts2 =>
    match parseValue ts2 with
    | .error e => .error e
    | .ok (lhs, ts3) =>
      match ts3 with
      | ⟨.comma, _⟩ :: ts4 =>
        match parseValue ts4 with
        | .error e => .error e
        | .ok (rhs, ts5) => .ok (.binary dest op lhs rhs, ts5)
      | _ => .error .unexpected
  | _ => .error .unexpected

/-- Modelled from the spec: parse one statement (§6). -/
def parseStmt (fuel : Nat) (ts : List Token) :
    Except ParseError (Stmt × List Token) :=
  match ts with
  | ⟨.label l, _⟩ :: ⟨.colon, _⟩ :: ts2 => .ok (.label l, ts2)
  | ⟨.register d, _⟩ :: ⟨.equal, _⟩ :: ts2 =>
    match ts2 with
    | ⟨.add, _⟩ :: ts3 => parseBinaryTail d .add ts3
    | ⟨.sub, _⟩ :: ts3 => parseBinaryTail d .sub ts3
    | ⟨.mul, _⟩ :: ts3 => parseBinaryTail d .mul ts3
    | ⟨.div, _⟩ :: ts3 => parseBinaryTail d .div ts3
    | ⟨.icmp, _⟩ :: ⟨.le, _⟩ :: ⟨.i32, _⟩ :: ts3 =>
      match parseValue ts3 with
      | .error e => .error e
      | .ok (lhs, ts4) =>
        match ts4 with
        | ⟨.comma, _⟩ :: ts5 =>
          match parseValue ts5 with
          | .error e => .error e
          | .ok (rhs, ts6) => .ok (.cmp d lhs rhs, ts6)
        | _ => .error .unexpected
    | ⟨.call, _⟩ :: ts3 => parseCallTail fuel (some d) ts3
    | _ => .error .unexpected
  | ⟨.call, _⟩ :: ts2 => parseCallTail fuel none ts2
  | ⟨.jmp, _⟩ :: ⟨.label t, _⟩ :: ts2 => .ok (.jmp t, ts2)
  | ⟨.branch, _⟩ :: ⟨.register c, _⟩ :: ⟨.label a, _⟩ :: ⟨.label b, _⟩ :: ts2 =>
    .ok (.branch c a b, ts2)
  | ⟨.ret, _⟩ :: ts2 =>
    match parseValue ts2 with
    | .ok (v, ts3) => .ok (.ret (some v), ts3)
    | .error _ => .ok (.ret none, ts2)
  | ⟨.exit, _⟩ :: ts2 =>
    match parseValue ts2 with
    | .error e => .error e
    | .ok (v, ts3) => .ok (.exit v, ts3)
  | _ => .error .unexpected

/-- Modelled from the spec: parse statements until the closing brace. -/
def parseStmts (fuel : Nat) (ts : List Token) :
    Except ParseError (List Stmt × List Token) :=
  match fuel with
  | 0 => .error .unexpected
  | fuel + 1 =>
    match ts with
    | ⟨.rightBrace, _⟩ :: ts2 => .ok ([], ts2)
    | _ =>
      match parseStmt fuel ts with
      | .error e => .error e
      | .ok (s, ts2) =>
        match parseStmts fuel ts2 with
        | .error e => .error e
        | .ok (ss, ts3) => .ok (s :: ss, ts3)

/-- Modelled from the spec: the comma-separated typed parameters after the
first one. -/
def parseParamsRest (fuel : Nat) (ts : List Token) :
    Except ParseError (List String × List Token) :=
  match fuel with
  | 0 => .error .unexpected
  | fuel + 1 =>
    match ts with
    | ⟨.rightParen, _⟩ :: ts2 => .ok ([], ts2)
    | ⟨.comma, _⟩ :: ⟨.i32, _⟩ :: ⟨.register p, _⟩ :: ts2 =>
      match parseParamsRest fuel ts2 with
      | .error e => .error e
      | .ok (ps, ts3) => .ok (p :: ps, ts3)
    | _ => .error .unexpected

/-- Modelled from the spec: an optional parenthesised, single-typed
parameter list (§6). -/
def parseParams (fuel : Nat) (ts : List Token) :
    Except ParseError (List String × List Token) :=
  match ts with
  | ⟨.leftParen, _⟩ :: ⟨.rightParen, _⟩ :: ts2 => .ok ([], ts2)
  | ⟨.leftParen, _⟩ :: ⟨.i32, _⟩ :: ⟨.register p, _⟩ :: ts2 =>
    match parseParamsRest fuel ts2 with
    | .error e => .error e
    | .ok (ps, ts3) => .ok (p :: ps, ts3)
  | _ => .ok ([], ts)

/-- Modelled from the spec: one function definition — the define keyword,
the at-name (with the duplicated Label/Colon absorbed), an optional
parameter list, and a braced body. -/
def parseFunction (fuel : Nat) (ts : List Token) :
    Except ParseError (AstFunction × List Token) :=
  match ts with
  | ⟨.define, _⟩ :: ⟨.function name, _⟩ :: ts2 =>
    match parseParams fuel (absorbLabelColon name ts2) with
    | .error e => .error e
    | .ok (params, ts3) =>
      match ts3 with
      | ⟨.leftBrace, _⟩ :: ts4 =>
        match parseStmts fuel ts4 with
        | .error e => .error e
        | .ok (body, ts5) => .ok (⟨name, params, body⟩, ts5)
      | _ => .error .unexpected
  | _ => .error .unexpected

/-- Modelled from the spec: function definitions until EOF. -/
def parseFunctions (fuel : Nat) (ts : List Token) :
    Except ParseError (List AstFunction) :=
  match fuel with
  | 0 => .error .unexpected
  | fuel + 1 =>
    match ts with
    | ⟨.eof, _⟩ :: _ => .ok []
    | _ =>
      match parseFunction fuel ts with
      | .error e => .error e
      | .ok (f, ts2) =>
        match parseFunctions fuel ts2 with
        | .error e => .error e
        | .ok fs => .ok (f :: fs)

/-- Modelled from the spec: Parser::parse — the whole token list to an
AST. -/
def parse (tokens : List Token) : Except ParseError Ast :=
  match parseFunctions (tokens.length + 1) tokens with
  | .error e => .error e
  | .ok fs => .ok ⟨fs⟩

/-! ### Lowering

Modelled from the spec: src/main.rs calls lowering::lower, whose source is
not in the repository.  §3 and §4.1 fix the Low-IR (a per-function CFG of
basic blocks, three-address instructions, one terminator per block) and
the lowering algorithm (label statements start blocks, statements after a
terminator start a kept unreferenced block, unresolved targets fail with
UnknownLabel, duplicate labels with DuplicateLabel, and the final block
without a terminator is closed by an implicit return of no value). -/

/-- Modelled from the spec: LoweringError (§7). -/
inductive LoweringError where
  | UnknownLabel (fn lbl : String)
  | DuplicateLabel (fn lbl : String)
deriving DecidableEq

/-- Modelled from the spec: a Low-IR non-control instruction (§3). -/
inductive Inst where
  | binary (dest : String) (op : BinOp) (lhs rhs : Value)
  | cmp (dest : String) (lhs rhs : Value)
  | call (dest : Option String) (callee : String) (args : List Value)
deriving DecidableEq

/-- Modelled from the spec: the terminator of a basic block (§3). -/
inductive Terminator where
  | jmp (target : String)
  | branch (cond : String) (ifTrue ifFalse : String)
  | ret (value : Option Value)
  | exit (value : Value)
deriving DecidableEq

/-- Modelled from the spec: a basic block (§3). -/
structure Block where
  label : String
  insts : List Inst
  term : Terminator
deriving DecidableEq

/-- Modelled from the spec: a lowered function (§3). -/
structure LFunction where
  name : String
  params : List String
  blocks : List Block
deriving DecidableEq

/-- Modelled from the spec: the Low-IR program (§2). -/
structure LowIR where
  functions : List LFunction
deriving DecidableEq

/-- Jump/branch targets of a terminator. -/
def Terminator.targets : Terminator → List String
  | .jmp t => [t]
  | .branch _ a b => [a, b]
  | .ret _ => []
  | .exit _ => []

/-- Label synthesised for a block the source does not name: the entry
block of each function reuses the function name (the scanner already
emits the function name as a label), and blocks opened after a terminator
without an intervening label get numbered names. -/
def anonLabel (fname : String) (k : Nat) : String :=
  fname ++ ".anon" ++ toString k

/-- State of the block builder: finished blocks, whether no block is
currently open (pending, right after a terminator), the open block's
label and instructions, and the counter for synthesised labels. -/
structure BuildSt where
  blocks : List Block
  pending : Bool
  curLabel : String
  cur : List Inst
  anon : Nat
deriving DecidableEq

/-- Append an instruction to the open block, opening a synthesised block
if none is open (spec §4.1: a statement after a terminator without a
label starts a new, kept block). -/
def pushInst (fname : String) (st : BuildSt) (i : Inst) : BuildSt :=
  if st.pending then
    { st with pending := false, curLabel := anonLabel fname st.anon,
              cur := [i], anon := st.anon + 1 }
  else { st with cur := st.cur ++ [i] }

/-- Close the open block with an explicit terminator (opening and at once
closing a synthesised block when none is open). -/
def pushTerm (fname : String) (st : BuildSt) (t : Terminator) : BuildSt :=
  if st.pending then
    { st with blocks := st.blocks ++ [⟨anonLabel fname st.anon, [], t⟩],
              anon := st.anon + 1 }
  else
    { st with blocks := st.blocks ++ [⟨st.curLabel, st.cur, t⟩],
              pending := true, cur := [] }

/-- One statement of the block builder.  The spec leaves the terminator of
a non-final block that ends at a label statement without explicit control
transfer open; it is closed with a return of no value here, as the final
block is (§4.1 names only the final block). -/
def buildStep (fname : String) (st : BuildSt) (s : Stmt) : BuildSt :=
  match s with
  | .label l =>
    if st.pending then { st with pending := false, curLabel := l, cur := [] }
    else
      { st with blocks := st.blocks ++ [⟨st.curLabel, st.cur, .ret none⟩],
                curLabel := l, cur := [] }
  | .binary d op lhs rhs => pushInst fname st (.binary d op lhs rhs)
  | .cmp d lhs rhs => pushInst fname st (.cmp d lhs rhs)
  | .call d f args => pushInst fname st (.call d f args)
  | .jmp t => pushTerm fname st (.jmp t)
  | .branch c a b => pushTerm fname st (.branch c a b)
  | .ret v => pushTerm fname st (.ret v)
  | .exit v => pushTerm fname st (.exit v)

/-- Modelled from the spec: split a function body into basic blocks
(§4.1); the final block without an explicit terminator is closed by an
implicit return of no value. -/
def buildBlocks (fname : String) (body : List Stmt) : List Block :=
  let st := body.foldl (buildStep fname) ⟨[], false, fname, [], 0⟩
  if st.pending then st.blocks
  else st.blocks ++ [⟨st.curLabel, st.cur, .ret none⟩]

/-- First label that occurs twice in the list, if any. -/
def firstDup : List String → Option String
  | [] => none
  | x :: xs => if xs.contains x then some x else firstDup xs

/-- All jump/branch targets of the blocks that resolve to no block label,
in order. -/
def danglingOf (labels : List String) (bs : List Block) : List String :=
  ((bs.map (fun b => b.term.targets)).flatten).filter (fun t => !(labels.contains t))

/-- Modelled from the spec: lower one function — build its blocks, reject
duplicate labels, resolve every jump/branch target (§4.1). -/
def lowerFunction (f : AstFunction) : Except LoweringError LFunction :=
  let bs := buildBlocks f.name f.body
  let labels := bs.map (fun b => b.label)
  match firstDup labels with
  | some l => .error (.DuplicateLabel f.name l)
  | none =>
    match danglingOf labels bs with
    | [] => .ok ⟨f.name, f.params, bs⟩
    | t :: _ => .error (.UnknownLabel f.name t)

/-- Lower a list of functions, stopping at the first error. -/
def lowerFuns : List AstFunction → Except LoweringError (List LFunction)
  | [] => .ok []
  | f :: fs =>
    match lowerFunction f with
    | .error e => .error e
    | .ok lf =>
      match lowerFuns fs with
      | .error e => .error e
      | .ok lfs => .ok (lf :: lfs)

/-- Modelled from the spec: lowering::lower — AST to Low-IR (§4.1). -/
def lower (ast : Ast) : Except LoweringError LowIR :=
  match lowerFuns ast.functions with
  | .error e => .error e
  | .ok fs => .ok ⟨fs⟩

/-! ### Liveness and register allocation

Modelled from the spec: src/main.rs calls regalloc::allocate_registers,
whose source is not in the repository.  §4.2 fixes block-granularity
backward liveness by fixed-point iteration; §4.3 a linear scan with a
caller/callee-saved pool split, furthest-use spilling and a UseBeforeDef
check.  Register sets are kept as sorted duplicate-free string lists so
every step is deterministic. -/

/-- Insert into a sorted duplicate-free list. -/
def sinsert (x : String) : List String → List String
  | [] => [x]
  | y :: ys => if x = y then y :: ys else if x < y then x :: y :: ys else y :: sinsert x ys

/-- Union of register sets, right operand sorted. -/
def sunion (a b : List String) : List String := a.foldr sinsert b

/-- Set difference of register lists. -/
def sdiff (a b : List String) : List String :=
  a.filter (fun x => !(b.contains x))

/-- Virtual registers read by a value. -/
def Value.uses : Value → List String
  | .reg n => [n]
  | .int _ => []
  | .str _ => []

/-- Virtual registers read by an instruction. -/
def Inst.uses : Inst → List String
  | .binary _ _ lhs rhs => lhs.uses ++ rhs.uses
  | .cmp _ lhs rhs => lhs.uses ++ rhs.uses
  | .call _ _ args => (args.map Value.uses).flatten

/-- Virtual registers written by an instruction. -/
def Inst.defs : Inst → List String
  | .binary d _ _ _ => [d]
  | .cmp d _ _ => [d]
  | .call (some d) _ _ => [d]
  | .call none _ _ => []

/-- Virtual registers read by a terminator. -/
def Terminator.uses : Terminator → List String
  | .jmp _ => []
  | .branch c _ _ => [c]
  | .ret (some v) => v.uses
  | .ret none => []
  | .exit v => v.uses

/-- Registers read before any redefinition in the instruction list, given
the registers already defined. -/
def usesInsts : List Inst → List String → List String
  | [], _ => []
  | i :: is, defined =>
    (i.uses.filter (fun r => !(defined.contains r))) ++ usesInsts is (defined ++ i.defs)

/-- All registers defined by the instruction list. -/
def defsInsts (is : List Inst) : List String := (is.map Inst.defs).flatten

/-- uses(B) of §4.2: read before any redefinition within the block,
terminator included. -/
def blockUses (b : Block) : List String :=
  (usesInsts b.insts [] ++
    b.term.uses.filter (fun r => !((defsInsts b.insts).contains r))).foldr sinsert []

/-- defs(B) of §4.2. -/
def blockDefs (b : Block) : List String := (defsInsts b.insts).foldr sinsert []

/-- Liveness table: per block label, its live-in and live-out sets, in
block order. -/
def LiveTable := List (String × List String × List String)
deriving instance DecidableEq for LiveTable

/-- Live-in set recorded for a label. -/
def liveInOf (t : LiveTable) (l : String) : List String :=
  match t.find? (fun e => e.1 = l) with
  | some e => e.2.1
  | none => []

/-- One round of the backward dataflow of §4.2 over all blocks. -/
def livenessStep (bs : List Block) (t : LiveTable) : LiveTable :=
  bs.map (fun b =>
    let liveOut := (b.term.targets.map (liveInOf t)).flatten.foldr sinsert []
    (b.label, sunion (blockUses b) (sdiff liveOut (blockDefs b)), liveOut))

/-- Iterate the dataflow step to a fixed point, bounded by fuel. -/
def iterateLiveness (fuel : Nat) (bs : List Block) (t : LiveTable) : LiveTable :=
  match fuel with
  | 0 => t
  | fuel + 1 =>
    let t2 := livenessStep bs t
    if t2 = t then t else iterateLiveness fuel bs t2

/-- All virtual registers of a function in order of first appearance. -/
def allRegs (f : LFunction) : List String :=
  (f.params ++
    ((f.blocks.map (fun b =>
      ((b.insts.map (fun i => i.uses ++ i.defs)).flatten) ++ b.term.uses)).flatten)).foldl
    (fun acc x => if acc.contains x then acc else acc ++ [x]) []

/-- Modelled from the spec: the per-function liveness analysis of §4.2.
The fixed point is reached within blocks times registers rounds; the
iteration is bounded by that count. -/
def liveness (f : LFunction) : LiveTable :=
  iterateLiveness (f.blocks.length * (allRegs f).length + 1) f.blocks
    (f.blocks.map (fun b => (b.label, [], [])))

/-- Modelled from the spec: AllocationError (§7). -/
inductive AllocationError where
  | UseBeforeDef (fn reg : String)
deriving DecidableEq

/-- Modelled from the spec: an allocation record is exactly one of a
physical register or a spill-slot offset (§3). -/
inductive AllocRecord where
  | phys (reg : String)
  | slot (offset : Nat)
deriving DecidableEq

/-- Modelled from the spec: an allocated function — the Low-IR blocks plus
the allocation record of every virtual register and the spill-slot count
that fixes the frame size (§3). -/
structure AllocFunction where
  name : String
  params : List String
  blocks : List Block
  records : List (String × AllocRecord)
  slotCount : Nat
deriving DecidableEq

/-- Modelled from the spec: the allocated program. -/
structure AllocProgram where
  functions : List AllocFunction
deriving DecidableEq

/-- Modelled from the spec: the calling convention — argument registers in
order, the return register, and the caller/callee-saved split (§4.3, on an
x86-64-like machine). -/
def argRegisters : List String := ["rdi", "rsi", "rdx", "rcx", "r8", "r9"]

/-- The convention's return-value register. -/
def returnRegister : String := "rax"

/-- Caller-saved allocatable registers, lowest-numbered first. -/
def callerSaved : List String := ["r10", "r11"]

/-- Callee-saved allocatable registers, lowest-numbered first. -/
def calleeSaved : List String := ["rbx", "r12", "r13", "r14", "r15"]

/-- Block positions (indices in block order) at which a register is live
or occurs, from the liveness table. -/
def livePoints (f : LFunction) (t : LiveTable) (r : String) : List Nat :=
  (List.range f.blocks.length).filter (fun i =>
    match f.blocks.get? i with
    | none => false
    | some b =>
      (liveInOf t b.label).contains r ||
      (blockUses b).contains r || (blockDefs b).contains r)

/-- Whether a block contains a call instruction. -/
def Block.hasCall (b : Block) : Bool :=
  b.insts.any (fun i => match i with | .call _ _ _ => true | _ => false)

/-- Whether a register interval spans a block with a call (block
granularity, §4.3). -/
def crossesCall (f : LFunction) (t : LiveTable) (r : String) : Bool :=
  (livePoints f t r).any (fun i =>
    match f.blocks.get? i with
    | none => false
    | some b => b.hasCall)

/-- State of the linear scan: remaining free registers of each pool,
active intervals as (virtual register, last point, physical register),
accumulated records, and the next fresh spill slot. -/
structure ScanSt where
  freeCaller : List String
  freeCallee : List String
  active : List (String × Nat × String)
  records : List (String × AllocRecord)
  nextSlot : Nat
deriving DecidableEq

/-- Return an expired physical register to its pool. -/
def releaseReg (st : ScanSt) (p : String) : ScanSt :=
  if calleeSaved.contains p then { st with freeCallee := st.freeCallee ++ [p] }
  else { st with freeCaller := st.freeCaller ++ [p] }

/-- Expire every active interval that ends before the given point. -/
def expireBefore (point : Nat) (st : ScanSt) : ScanSt :=
  st.active.foldl
    (fun acc e =>
      if e.2.1 < point then
        { releaseReg acc e.2.2 with active := acc.active.filter (fun x => x.1 ≠ e.1) }
      else acc)
    st

/-- The active interval with the furthest remaining use; ties keep the
earlier-assigned interval (§4.3's deterministic tie-break). -/
def furthestActive (l : List (String × Nat × String)) :
    Option (String × Nat × String) :=
  l.foldl
    (fun best e =>
      match best with
      | none => some e
      | some b => if e.2.1 > b.2.1 then some e else best)
    none

/-- Assign one virtual register: lowest-numbered free register from the
preferred pool (callee-saved for call-crossing intervals), else from the
other pool, else spill the furthest-use active interval to a fresh slot
and take its register (§4.3). -/
def assignReg (r : String) (lastPt : Nat) (preferCallee : Bool) (st : ScanSt) : ScanSt :=
  let pools := if preferCallee then (st.freeCallee, st.freeCaller)
               else (st.freeCaller, st.freeCallee)
  match pools.1 with
  | p :: rest =>
    let st := if preferCallee then { st with freeCallee := rest }
              else { st with freeCaller := rest }
    { st with active := st.active ++ [(r, lastPt, p)],
              records := st.records ++ [(r, .phys p)] }
  | [] =>
    match pools.2 with
    | p :: rest =>
      let st := if preferCallee then { st with freeCaller := rest }
                else { st with freeCallee := rest }
      { st with active := st.active ++ [(r, lastPt, p)],
                records := st.records ++ [(r, .phys p)] }
    | [] =>
      match furthestActive st.active with
      | none => { st with records := st.records ++ [(r, .slot st.nextSlot)],
                          nextSlot := st.nextSlot + 1 }
      | some victim =>
        { st with
            active := st.active.filter (fun x => x.1 ≠ victim.1) ++ [(r, lastPt, victim.2.2)],
            records :=
              (st.records.map (fun e =>
                if e.1 = victim.1 then (e.1, AllocRecord.slot st.nextSlot) else e)) ++
              [(r, .phys victim.2.2)],
            nextSlot := st.nextSlot + 1 }

/-- First point of a register's interval (its ordering key). -/
def firstPointOf (f : LFunction) (t : LiveTable) (r : String) : Nat :=
  match livePoints f t r with
  | [] => 0
  | p :: _ => p

/-- Last point of a register's interval. -/
def lastPointOf (f : LFunction) (t : LiveTable) (r : String) : Nat :=
  (livePoints f t r).foldl (fun a p => max a p) 0

/-- Stable insertion by first point: appearance order breaks ties
(§4.3). -/
def insertByPoint (e : String × Nat) : List (String × Nat) → List (String × Nat)
  | [] => [e]
  | x :: xs => if e.2 < x.2 then e :: x :: xs else x :: insertByPoint e xs

/-- Modelled from the spec: allocate one function — order the virtual
registers by first live point (appearance order breaking ties), check for
a register live into the entry block that is not a parameter
(UseBeforeDef), then linear-scan with the two pools (§4.3).  Parameters
take the interval of their register like any other. -/
def allocFunction (f : LFunction) : Except AllocationError AllocFunction :=
  let t := liveness f
  let entryLive :=
    match f.blocks with
    | [] => []
    | b :: _ => liveInOf t b.label
  match (sdiff entryLive f.params) with
  | r :: _ => .error (.UseBeforeDef f.name r)
  | [] =>
    let ordered :=
      ((allRegs f).map (fun r => (r, firstPointOf f t r))).foldl
        (fun acc e => insertByPoint e acc) []
    let final :=
      ordered.foldl
        (fun st e =>
          let st := expireBefore e.2 st
          assignReg e.1 (lastPointOf f t e.1) (crossesCall f t e.1) st)
        ⟨callerSaved, calleeSaved, [], [], 0⟩
    .ok ⟨f.name, f.params, f.blocks, final.records, final.nextSlot⟩

/-- Allocate a list of functions, stopping at the first error. -/
def allocFuns : List LFunction → Except AllocationError (List AllocFunction)
  | [] => .ok []
  | f :: fs =>
    match allocFunction f with
    | .error e => .error e
    | .ok af =>
      match allocFuns fs with
      | .error e => .error e
      | .ok afs => .ok (af :: afs)

/-- Modelled from the spec: regalloc::allocate_registers — Low-IR to the
allocated program (§4.3). -/
def allocate_registers (p : LowIR) : Except AllocationError AllocProgram :=
  match allocFuns p.functions with
  | .error e => .error e
  | .ok fs => .ok ⟨fs⟩

/-! ### Code generation

Modelled from the spec: src/main.rs calls CodeGenerator::new().generate,
whose source is not in the repository.  §4.4 fixes the shape: a fixed
program entry stub, then per function a prologue reserving the spill
frame, the blocks in Low-IR order each headed by its label, instructions
with operands resolved through the allocation records, and the platform
exit sequence for exit terminators.  The emission below is plain string
concatenation, so it is deterministic text by construction. -/

/-- Machine word size in bytes (§4.4). -/
def wordSize : Nat := 8

/-- Resolve a value through the allocation records: a physical register
name, a frame-relative memory operand for a spill slot, or the literal. -/
def operandFor (records : List (String × AllocRecord)) (v : Value) : String :=
  match v with
  | .int n => toString n
  | .str s => s
  | .reg r =>
    match records.lookup r with
    | some (.phys p) => p
    | some (.slot k) => "[rbp-" ++ toString ((k + 1) * wordSize) ++ "]"
    | none => r

/-- Machine mnemonic of a binary operator. -/
def BinOp.mnemonic : BinOp → String
  | .add => "add"
  | .sub => "sub"
  | .mul => "imul"
  | .div => "idiv"

/-- Emit the argument moves of a call, in convention order; arguments
beyond the convention's register count are pushed to stack slots in
left-to-right order (§4.4). -/
def emitArgs (records : List (String × AllocRecord)) (args : List Value) : String :=
  String.join
    ((List.range args.length).map (fun i =>
      match args.get? i, argRegisters.get? i with
      | some v, some r => "  mov " ++ r ++ ", " ++ operandFor records v ++ "\n"
      | some v, none => "  push " ++ operandFor records v ++ "\n"
      | none, _ => ""))

/-- Emit one instruction (§4.4). -/
def emitInst (records : List (String × AllocRecord)) (i : Inst) : String :=
  match i with
  | .binary d op lhs rhs =>
    let dst := operandFor records (.reg d)
    "  mov " ++ dst ++ ", " ++ operandFor records lhs ++ "\n" ++
    "  " ++ op.mnemonic ++ " " ++ dst ++ ", " ++ operandFor records rhs ++ "\n"
  | .cmp d lhs rhs =>
    "  cmp " ++ operandFor records lhs ++ ", " ++ operandFor records rhs ++ "\n" ++
    "  setle " ++ operandFor records (.reg d) ++ "\n"
  | .call d f args =>
    emitArgs records args ++
    "  call " ++ f ++ "\n" ++
    (match d with
     | some dst => "  mov " ++ operandFor records (.reg dst) ++ ", " ++ returnRegister ++ "\n"
     | none => "")

/-- Epilogue restoring the stack pointer before return (§4.4). -/
def emitEpilogue : String :=
  "  mov rsp, rbp\n  pop rbp\n  ret\n"

/-- Emit a terminator: jump, compare-and-branch pair, return (value in the
convention's return register, then the epilogue), or the platform exit
sequence (§4.4). -/
def emitTerm (records : List (String × AllocRecord)) (t : Terminator) : String :=
  match t with
  | .jmp l => "  jmp " ++ l ++ "\n"
  | .branch c a b =>
    "  cmp " ++ operandFor records (.reg c) ++ ", 0\n" ++
    "  jne " ++ a ++ "\n" ++
    "  jmp " ++ b ++ "\n"
  | .ret v =>
    (match v with
     | some v => "  mov " ++ returnRegister ++ ", " ++ operandFor records v ++ "\n"
     | none => "") ++ emitEpilogue
  | .exit v =>
    "  mov rdi, " ++ operandFor records v ++ "\n" ++
    "  mov rax, 60\n  syscall\n"

/-- Emit one block: its label line, its instructions, its terminator. -/
def emitBlock (records : List (String × AllocRecord)) (b : Block) : String :=
  b.label ++ ":\n" ++
  String.join (b.insts.map (emitInst records)) ++
  emitTerm records b.term

/-- Emit one function: prologue reserving the spill frame, then the blocks
in Low-IR order (§4.4). -/
def emitFunction (f : AllocFunction) : String :=
  f.name ++ ":\n" ++
  "  push rbp\n  mov rbp, rsp\n" ++
  "  sub rsp, " ++ toString (f.slotCount * wordSize) ++ "\n" ++
  String.join (f.blocks.map (emitBlock f.records))

/-- The fixed program entry stub (§4.4). -/
def entryStub : String :=
  "global _start\n_start:\n  call main\n  mov rdi, rax\n  mov rax, 60\n  syscall\n"

/-- Modelled from the spec: CodeGenerator::generate — the entry stub plus
the concatenation of all functions in program order (§4.4). -/
def generate (p : AllocProgram) : String :=
  entryStub ++ String.join (p.functions.map emitFunction)

/-! ### The driver

From src/main.rs, which is in the repository and is the authority here.
The ambient state the driver touches is modelled as an environment: the
argv list, the readable files (path, contents) and the existing
directories.  A Rust panic — args out-of-bounds indexing, expect on an
unreadable file, unwrap on a parse error, unwrap on File::create or
write_all failure — is the panicked outcome; the controlled path through
report (println then exit(1)) is the exitErr outcome.  fs::File::create
creates the file fresh, truncating prior contents, and succeeds exactly
when the destination directory exists; write_all then replaces the
contents with the generated code. -/

/-- The ambient state the driver touches. -/
structure Env where
  argv : List String
  files : List (String × String)
  dirs : List String
deriving DecidableEq

/-- The fixed output path of src/main.rs line 56. -/
def outPath : String := "build/out.asm"

/-- The directory component of the output path. -/
def outDir : String := "build"

/-- Set a file's contents, creating it if absent. -/
def setFile (files : List (String × String)) (p v : String) :
    List (String × String) :=
  if (files.lookup p).isSome then
    files.map (fun e => if e.1 = p then (p, v) else e)
  else files ++ [(p, v)]

/-- Outcome of one process run: normal exit with the final file system,
exit(1) after a printed report, or a Rust panic (abnormal, non-reported
termination). -/
inductive ProcOutcome where
  | exitOk (files : List (String × String))
  | exitErr (files : List (String × String)) (msg : String)
  | panicked (files : List (String × String))
deriving DecidableEq

/-- The files at process termination. -/
def ProcOutcome.filesOf : ProcOutcome → List (String × String)
  | .exitOk fs => fs
  | .exitErr fs _ => fs
  | .panicked fs => fs

/-- Whether the run succeeded. -/
def ProcOutcome.isOk : ProcOutcome → Bool
  | .exitOk _ => true
  | _ => false

/-- The line report prints: println of the bracketed line, the position
(empty at both call sites) and the message, before exit(1). -/
def report_msg (line : Int) (position message : String) : String :=
  "[line " ++ toString line ++ "] Error " ++ position ++ ": " ++ message

/-- Modelled from the spec: the message a lowering failure is reported
with — the error kind and the offending function and label (§7).  The
driver handling itself is modelled from §7, since main.rs line 43 shows no
handling and the lowering source is not in the repository. -/
def loweringErrMsg : LoweringError → String
  | .UnknownLabel fn lbl => "UnknownLabel " ++ fn ++ " " ++ lbl
  | .DuplicateLabel fn lbl => "DuplicateLabel " ++ fn ++ " " ++ lbl

/-- Modelled from the spec: the message an allocation failure is reported
with (§7). -/
def allocErrMsg : AllocationError → String
  | .UseBeforeDef fn reg => "UseBeforeDef " ++ fn ++ " " ++ reg

/-- The run function of src/main.rs: scan (reporting lexing errors through
error/report), parse (unwrap: a parse error panics), lower, allocate,
generate, then File::create("build/out.asm").unwrap() and
write_all(..).unwrap() — both unwraps panic when the destination
directory does not exist. -/
def run (env : Env) (source : String) : ProcOutcome :=
  match scan_tokens (Scanner.new source) with
  | .nonterm => .panicked env.files
  | .panic => .panicked env.files
  | .err (.unexpectedCharacter l) => .exitErr env.files (report_msg l "" "Unexpected Char")
  | .err (.unterminatedString l) => .exitErr env.files (report_msg l "" "Unterminated Str")
  | .ok tokens =>
    match parse tokens with
    | .error _ => .panicked env.files
    | .ok ast =>
      match lower ast with
      | .error e => .exitErr env.files (loweringErrMsg e)
      | .ok low_ir =>
        match allocate_registers low_ir with
        | .error e => .exitErr env.files (allocErrMsg e)
        | .ok reg =>
          let code := generate reg
          if env.dirs.contains outDir then
            .exitOk (setFile env.files outPath code)
          else .panicked env.files

/-- run_file of src/main.rs: fs::read_to_string(path).expect(..) panics
when the file is unreadable; otherwise run on the contents. -/
def run_file (env : Env) (file_path : String) : ProcOutcome :=
  match env.files.lookup file_path with
  | none => .panicked env.files
  | some contents => run env contents

/-- main of src/main.rs: args[1] panics (index out of bounds) when no
argument was passed; otherwise run_file on it. -/
def main (env : Env) : ProcOutcome :=
  match env.argv.get? 1 with
  | none => .panicked env.files
  | some file_path => run_file env file_path

/-- Compilation error of the whole backend pipeline. -/
inductive CompileError where
  | lowering (e : LoweringError)
  | allocation (e : AllocationError)
deriving DecidableEq

/-- The backend pipeline as one function of the AST: lowering, register
allocation, code generation (§2, §8). -/
def compile (ast : Ast) : Except CompileError String :=
  match lower ast with
  | .error e => .error (.lowering e)
  | .ok low_ir =>
    match allocate_registers low_ir with
    | .error e => .error (.allocation e)
    | .ok reg => .ok (generate reg)

/-- The dangling jump/branch targets of a function: targets of its lowered
blocks that resolve to no block label in the same function (§3). -/
def AstFunction.danglingTargets (f : AstFunction) : List String :=
  danglingOf ((buildBlocks f.name f.body).map (fun b => b.label)) (buildBlocks f.name f.body)

/-- Whether two blocks of the lowered function share a label (§4.1
DuplicateLabel condition). -/
def AstFunction.hasDupLabel (f : AstFunction) : Bool :=
  (firstDup ((buildBlocks f.name f.body).map (fun b => b.label))).isSome

/-! ## Lemmas about the scanner helpers -/

theorem takeDigits_cons_digit (acc : List Char) (c : Char) (cs : List Char)
    (h : c.isDigit = true) : takeDigits acc (c :: cs) = takeDigits (acc ++ [c]) cs := by
  simp only [takeDigits, h, if_true]

theorem takeDigits_cons_nondigit (acc : List Char) (c : Char) (cs : List Char)
    (h : c.isDigit = false) : takeDigits acc (c :: cs) = (acc, c :: cs) := by
  simp only [takeDigits, h, Bool.false_eq_true, if_false]

theorem takeDigits_acc (l : List Char) :
    ∀ acc, takeDigits acc l = (acc ++ (takeDigits [] l).1, (takeDigits [] l).2) := by
  induction l with
  | nil => intro acc; simp [takeDigits]
  | cons c cs ih =>
    intro acc
    by_cases h : c.isDigit
    · rw [takeDigits_cons_digit acc c cs h, takeDigits_cons_digit [] c cs h,
        List.nil_append, ih (acc ++ [c]), ih [c]]
      simp
    · rw [takeDigits_cons_nondigit acc c cs (by simpa using h),
        takeDigits_cons_nondigit [] c cs (by simpa using h)]
      simp

theorem takeDigits_sfx (l : List Char) : ∀ acc, (takeDigits acc l).2 <:+ l := by
  induction l with
  | nil => intro acc; simp [takeDigits]
  | cons c cs ih =>
    intro acc
    by_cases h : c.isDigit
    · rw [takeDigits_cons_digit acc c cs h]
      exact (ih (acc ++ [c])).trans (List.suffix_cons c cs)
    · rw [takeDigits_cons_nondigit acc c cs (by simpa using h)]

theorem takeDigits_split (l : List Char) :
    l = (takeDigits [] l).1 ++ (takeDigits [] l).2 := by
  induction l with
  | nil => simp [takeDigits]
  | cons c cs ih =>
    by_cases h : c.isDigit
    · rw [takeDigits_cons_digit [] c cs h, List.nil_append, takeDigits_acc cs [c]]
      simpa using ih
    · rw [takeDigits_cons_nondigit [] c cs (by simpa using h)]
      simp

theorem takeDigits_all (l : List Char) :
    ∀ c ∈ (takeDigits [] l).1, c.isDigit = true := by
  induction l with
  | nil => simp [takeDigits]
  | cons c cs ih =>
    by_cases h : c.isDigit
    · rw [takeDigits_cons_digit [] c cs h, List.nil_append, takeDigits_acc cs [c]]
      intro x hx
      rcases (by simpa using hx : x = c ∨ x ∈ (takeDigits [] cs).1) with h1 | h2
      · subst h1; exact h
      · exact ih x h2
    · rw [takeDigits_cons_nondigit [] c cs (by simpa using h)]
      simp

theorem takeDigits_head_rest (l : List Char) :
    (takeDigits [] l).2 = [] ∨
      ∃ d ds, (takeDigits [] l).2 = d :: ds ∧ d.isDigit = false := by
  induction l with
  | nil => simp [takeDigits]
  | cons c cs ih =>
    by_cases h : c.isDigit
    · rw [takeDigits_cons_digit [] c cs h, List.nil_append, takeDigits_acc cs [c]]
      exact ih
    · rw [takeDigits_cons_nondigit [] c cs (by simpa using h)]
      exact Or.inr ⟨c, cs, rfl, by simpa using h⟩

theorem takeDigits_of_span (ds : List Char) :
    ∀ r, (∀ c ∈ ds, c.isDigit = true) →
      (r = [] ∨ ∃ d ds2, r = d :: ds2 ∧ d.isDigit = false) →
      takeDigits [] (ds ++ r) = (ds, r) := by
  induction ds with
  | nil =>
    intro r _ hr
    rcases hr with hr | ⟨d, ds2, hr, hd⟩
    · simp [hr, takeDigits]
    · rw [List.nil_append, hr, takeDigits_cons_nondigit [] d ds2 hd]
  | cons c cs ih =>
    intro r hds hr
    have hc : c.isDigit = true := hds c (by simp)
    rw [List.cons_append, takeDigits_cons_digit [] c (cs ++ r) hc, List.nil_append,
      takeDigits_acc (cs ++ r) [c], ih r (fun x hx => hds x (by simp [hx])) hr]
    simp

theorem scan_identifer_cons_alnum (w : List Char) (c : Char) (cs : List Char)
    (h : c.isAlphanum = true) :
    scan_identifer w (c :: cs) = scan_identifer (w ++ [c]) cs := by
  simp only [scan_identifer, h, if_true]

theorem scan_identifer_cons_nonalnum (w : List Char) (c : Char) (cs : List Char)
    (h : c.isAlphanum = false) : scan_identifer w (c :: cs) = (w, c :: cs) := by
  simp only [scan_identifer, h, Bool.false_eq_true, if_false]

theorem scan_identifer_acc (l : List Char) :
    ∀ w, scan_identifer w l =
      (w ++ (scan_identifer [] l).1, (scan_identifer [] l).2) := by
  induction l with
  | nil => intro w; simp [scan_identifer]
  | cons c cs ih =>
    intro w
    by_cases h : c.isAlphanum
    · rw [scan_identifer_cons_alnum w c cs h, scan_identifer_cons_alnum [] c cs h,
        List.nil_append, ih (w ++ [c]), ih [c]]
      simp
    · rw [scan_identifer_cons_nonalnum w c cs (by simpa using h),
        scan_identifer_cons_nonalnum [] c cs (by simpa using h)]
      simp

theorem scan_identifer_sfx (l : List Char) : ∀ w, (scan_identifer w l).2 <:+ l := by
  induction l with
  | nil => intro w; simp [scan_identifer]
  | cons c cs ih =>
    intro w
    by_cases h : c.isAlphanum
    · rw [scan_identifer_cons_alnum w c cs h]
      exact (ih (w ++ [c])).trans (List.suffix_cons c cs)
    · rw [scan_identifer_cons_nonalnum w c cs (by simpa using h)]

theorem scanString_sfx (l : List Char) :
    ∀ line out, scanString line l = some out →
      out.2.2 <:+ l ∧ out.2.2.length < l.length := by
  induction l with
  | nil => intro line out h; simp [scanString] at h
  | cons c cs ih =>
    intro line out h
    simp only [scanString] at h
    by_cases hc : c = '"'
    · simp only [hc, if_true] at h
      cases h
      exact ⟨List.suffix_cons _ _, by simp⟩
    · simp only [hc, if_false] at h
      rcases hrec : scanString (if c = '\n' then line + 1 else line) cs with _ | ⟨l2, content, r⟩
      · rw [hrec] at h; cases h
      · rw [hrec] at h
        cases h
        have hr := ih _ _ hrec
        exact ⟨hr.1.trans (List.suffix_cons c cs), Nat.lt_trans hr.2 (by simp)⟩

/-! ## Lemmas about digit values and maximal digit runs -/

theorem foldl_digits (l : List Char) :
    ∀ a, l.foldl (fun a c => a * 10 + (c.toNat - 48)) a =
      a * 10 ^ l.length + l.foldl (fun a c => a * 10 + (c.toNat - 48)) 0 := by
  induction l with
  | nil => intro a; simp
  | cons c cs ih =>
    intro a
    simp only [List.foldl_cons, List.length_cons]
    rw [ih (a * 10 + (c.toNat - 48)), ih (0 * 10 + (c.toNat - 48))]
    ring

theorem digitsToNat_foldl (l : List Char) :
    ∀ a, l.foldl (fun a c => a * 10 + (c.toNat - 48)) a =
      a * 10 ^ l.length + digitsToNat l := by
  intro a
  simpa [digitsToNat] using foldl_digits l a

theorem digitsToNat_append (a b : List Char) :
    digitsToNat (a ++ b) = digitsToNat a * 10 ^ b.length + digitsToNat b := by
  simp only [digitsToNat, List.foldl_append]
  exact digitsToNat_foldl b _

theorem digitsToNat_suffix_le (a b : List Char) (h : a <:+ b) :
    digitsToNat a ≤ digitsToNat b := by
  obtain ⟨pre, rfl⟩ := h
  rw [digitsToNat_append]
  exact Nat.le_add_left _ _

theorem foldr_dr (cs : List Char) :
    (cs.foldr drStep ([], [])).1 = (takeDigits [] cs).1 ∧
      (cs.foldr drStep ([], [])).2 = digit_runs ((takeDigits [] cs).2) := by
  induction cs with
  | nil => simp [takeDigits, digit_runs]
  | cons c cs ih =>
    simp only [List.foldr_cons]
    by_cases h : c.isDigit
    · rw [takeDigits_cons_digit [] c cs h, List.nil_append, takeDigits_acc cs [c]]
      simp only [drStep, h, if_true]
      exact ⟨by simp [ih.1], ih.2⟩
    · rw [takeDigits_cons_nondigit [] c cs (by simpa using h)]
      simp only [drStep, h, Bool.false_eq_true, if_false]
      refine ⟨trivial, ?_⟩
      conv_rhs => rw [digit_runs]
      simp [List.foldr_cons, drStep, h]

theorem digit_runs_cons_digit (c : Char) (cs : List Char) (h : c.isDigit = true) :
    digit_runs (c :: cs) =
      (c :: (takeDigits [] cs).1) :: digit_runs ((takeDigits [] cs).2) := by
  conv_lhs => rw [digit_runs]
  simp only [List.foldr_cons, drStep, h, if_true]
  simp [(foldr_dr cs).1, (foldr_dr cs).2]

theorem digit_runs_cons_nondigit (c : Char) (cs : List Char) (h : c.isDigit = false) :
    digit_runs (c :: cs) = digit_runs cs := by
  conv_lhs => rw [digit_runs]
  simp only [List.foldr_cons, drStep, h, Bool.false_eq_true, if_false, if_true]
  rw [digit_runs]

theorem head_run_mem_aux (n : Nat) :
    ∀ (l : List Char), l.length ≤ n → ∀ c cs, (c :: cs) <:+ l → c.isDigit = true →
      ∃ run, run ∈ digit_runs l ∧ (c :: (takeDigits [] cs).1) <:+ run := by
  induction n with
  | zero =>
    intro l hl c cs hsfx _
    have hnil : l = [] := List.length_eq_zero.mp (Nat.le_zero.mp hl)
    subst hnil
    rcases hsfx with ⟨pre, hpre⟩
    exact absurd hpre (by simp)
  | succ n ih =>
    intro l hl c cs hsfx hc
    rcases l with _ | ⟨a, t⟩
    · rcases hsfx with ⟨pre, hpre⟩
      exact absurd hpre (by simp)
    · have hlt : t.length ≤ n := by simpa using hl
      rcases List.suffix_cons_iff.mp hsfx with heq | hsfx2
      · -- The suffix is the whole list: its head run heads digit_runs.
        injection heq with h1 h2
        subst h1; subst h2
        rw [digit_runs_cons_digit c cs hc]
        exact ⟨c :: (takeDigits [] cs).1, by simp, List.suffix_refl _⟩
      · by_cases ha : a.isDigit
        · rw [digit_runs_cons_digit a t ha]
          have hr2sfx : (takeDigits [] t).2 <:+ t := takeDigits_sfx t []
          rcases List.suffix_or_suffix_of_suffix hsfx2 hr2sfx with hcase | hcase
          · -- The suffix lies beyond the head run: recurse into the rest.
            have hlen : (takeDigits [] t).2.length ≤ n :=
              Nat.le_trans hr2sfx.length_le hlt
            obtain ⟨run, hmem, hsfx3⟩ := ih (takeDigits [] t).2 hlen c cs hcase hc
            exact ⟨run, by simp [hmem], hsfx3⟩
          · -- The suffix starts inside the head run.
            obtain ⟨ds2, hsplit⟩ := hcase
            obtain ⟨pre, hpre⟩ := hsfx2
            have ht : t = (takeDigits [] t).1 ++ (takeDigits [] t).2 := takeDigits_split t
            have hds2 : pre ++ ds2 = (takeDigits [] t).1 := by
              have hcat : (pre ++ ds2) ++ (takeDigits [] t).2 =
                  (takeDigits [] t).1 ++ (takeDigits [] t).2 := by
                rw [List.append_assoc, hsplit, hpre]
                exact ht
              exact List.append_cancel_right hcat
            have hall : ∀ x ∈ ds2, x.isDigit = true := by
              intro x hx
              exact takeDigits_all t x (hds2 ▸ List.mem_append_right pre hx)
            have hshape := takeDigits_head_rest t
            rcases ds2 with _ | ⟨e, ds2t⟩
            · -- Empty overlap would give the rest a digit head: impossible.
              exfalso
              simp only [List.nil_append] at hsplit
              rcases hshape with h0 | ⟨d, ds3, hEq, hd⟩
              · rw [h0] at hsplit; cases hsplit
              · rw [hEq] at hsplit
                injection hsplit with h1 _
                rw [h1] at hd
                rw [hc] at hd
                cases hd
            · -- The leading run of the suffix is the tail of the head run.
              simp only [List.cons_append] at hsplit
              injection hsplit with h1 h2
              have htake : takeDigits [] cs = (ds2t, (takeDigits [] t).2) := by
                rw [← h2]
                exact takeDigits_of_span ds2t (takeDigits [] t).2
                  (fun x hx => hall x (by simp [hx])) hshape
              refine ⟨a :: (takeDigits [] t).1, by simp, ?_⟩
              rw [htake, ← h1]
              have hsub : (e :: ds2t) <:+ (takeDigits [] t).1 := ⟨pre, hds2⟩
              exact hsub.trans (List.suffix_cons a (takeDigits [] t).1)
        · rw [digit_runs_cons_nondigit a t (by simpa using ha)]
          exact ih t hlt c cs hsfx2 hc

/-- The leading digit run at any digit-headed suffix of l is the tail of
one of the maximal digit runs of l. -/
theorem head_run_mem (l : List Char) (c : Char) (cs : List Char)
    (hsfx : (c :: cs) <:+ l) (hc : c.isDigit = true) :
    ∃ run, run ∈ digit_runs l ∧ (c :: (takeDigits [] cs).1) <:+ run :=
  head_run_mem_aux l.length l (Nat.le_refl _) c cs hsfx hc


/-! ## Lemmas about scan_token -/

theorem keywordOf_ne_eof (w : String) : keywordOf w ≠ TokenType.eof := by
  intro h
  unfold keywordOf at h
  by_cases h1 : w = "i32"
  · rw [if_pos h1] at h; cases h
  rw [if_neg h1] at h
  by_cases h2 : w = "add"
  · rw [if_pos h2] at h; cases h
  rw [if_neg h2] at h
  by_cases h3 : w = "sub"
  · rw [if_pos h3] at h; cases h
  rw [if_neg h3] at h
  by_cases h4 : w = "mul"
  · rw [if_pos h4] at h; cases h
  rw [if_neg h4] at h
  by_cases h5 : w = "div"
  · rw [if_pos h5] at h; cases h
  rw [if_neg h5] at h
  by_cases h6 : w = "exit"
  · rw [if_pos h6] at h; cases h
  rw [if_neg h6] at h
  by_cases h7 : w = "define"
  · rw [if_pos h7] at h; cases h
  rw [if_neg h7] at h
  by_cases h8 : w = "ret"
  · rw [if_pos h8] at h; cases h
  rw [if_neg h8] at h
  by_cases h9 : w = "call"
  · rw [if_pos h9] at h; cases h
  rw [if_neg h9] at h
  by_cases h10 : w = "jmp"
  · rw [if_pos h10] at h; cases h
  rw [if_neg h10] at h
  by_cases h11 : w = "cmp"
  · rw [if_pos h11] at h; cases h
  rw [if_neg h11] at h
  by_cases h12 : w = "branch"
  · rw [if_pos h12] at h; cases h
  rw [if_neg h12] at h
  by_cases h13 : w = "le"
  · rw [if_pos h13] at h; cases h
  rw [if_neg h13] at h
  cases h

set_option maxHeartbeats 1000000 in
theorem scan_token_ok (st : Scanner) (b : Bool) (toks : List Token) (st2 : Scanner)
    (h : scan_token st = .ok b toks st2) :
    st2.rest <:+ st.rest ∧ (b = true → st2.rest.length < st.rest.length) ∧
      (∀ t ∈ toks, t.token_type ≠ .eof) := by
  rcases hr : st.rest with _ | ⟨c, cs⟩
  · rw [scan_token, hr] at h
    cases h
    simp [hr]
  · simp only [scan_token, hr] at h
    have hsfx : cs <:+ c :: cs := List.suffix_cons c cs
    have hid : (scan_identifer [c] cs).2 <:+ c :: cs :=
      (scan_identifer_sfx cs [c]).trans hsfx
    have hid2 : (scan_identifer [] cs).2 <:+ c :: cs :=
      (scan_identifer_sfx cs []).trans hsfx
    have hlid : (scan_identifer [c] cs).2.length < (c :: cs).length :=
      Nat.lt_of_le_of_lt (scan_identifer_sfx cs [c]).length_le (by simp)
    have hlid2 : (scan_identifer [] cs).2.length < (c :: cs).length :=
      Nat.lt_of_le_of_lt (scan_identifer_sfx cs []).length_le (by simp)
    by_cases h1 : c = '('
    · rw [if_pos h1] at h
      cases h
      exact ⟨hsfx, fun _ => by simp, by
        intro t ht; simp only [List.mem_singleton] at ht; subst ht; simp⟩
    rw [if_neg h1] at h
    by_cases h2 : c = ')'
    · rw [if_pos h2] at h
      cases h
      exact ⟨hsfx, fun _ => by simp, by
        intro t ht; simp only [List.mem_singleton] at ht; subst ht; simp⟩
    rw [if_neg h2] at h
    by_cases h3 : c = '{'
    · rw [if_pos h3] at h
      cases h
      exact ⟨hsfx, fun _ => by simp, by
        intro t ht; simp only [List.mem_singleton] at ht; subst ht; simp⟩
    rw [if_neg h3] at h
    by_cases h4 : c = '}'
    · rw [if_pos h4] at h
      cases h
      exact ⟨hsfx, fun _ => by simp, by
        intro t ht; simp only [List.mem_singleton] at ht; subst ht; simp⟩
    rw [if_neg h4] at h
    by_cases h5 : c = ','
    · rw [if_pos h5] at h
      cases h
      exact ⟨hsfx, fun _ => by simp, by
        intro t ht; simp only [List.mem_singleton] at ht; subst ht; simp⟩
    rw [if_neg h5] at h
    by_cases h6 : c = ':'
    · rw [if_pos h6] at h
      cases h
      exact ⟨hsfx, fun _ => by simp, by
        intro t ht; simp only [List.mem_singleton] at ht; subst ht; simp⟩
    rw [if_neg h6] at h
    by_cases h7 : c = '='
    · rw [if_pos h7] at h
      cases h
      exact ⟨hsfx, fun _ => by simp, by
        intro t ht; simp only [List.mem_singleton] at ht; subst ht; simp⟩
    rw [if_neg h7] at h
    by_cases h8 : c = '"'
    · rw [if_pos h8] at h
      rcases hscan : scanString st.line cs with _ | ⟨l2, content, r2⟩
      · rw [hscan] at h; cases h
      · rw [hscan] at h
        cases h
        have hs := scanString_sfx cs st.line _ hscan
        have hlr : r2.length < cs.length := by simpa using hs.2
        refine ⟨hs.1.trans hsfx, fun _ => Nat.lt_succ_of_lt hlr, ?_⟩
        intro t ht; simp only [List.mem_singleton] at ht; subst ht; simp
    rw [if_neg h8] at h
    by_cases h9 : c = '%'
    · rw [if_pos h9] at h
      cases h
      exact ⟨hid, fun _ => hlid, by
        intro t ht; simp only [List.mem_singleton] at ht; subst ht; simp⟩
    rw [if_neg h9] at h
    by_cases h10 : c = '@'
    · rw [if_pos h10] at h
      cases h
      refine ⟨hid2, fun _ => hlid2, ?_⟩
      intro t ht
      simp only [List.mem_cons, List.not_mem_nil, or_false] at ht
      rcases ht with rfl | rfl | rfl <;> simp
    rw [if_neg h10] at h
    by_cases h11 : c = ' ' ∨ c = '\r' ∨ c = '\t'
    · rw [if_pos h11] at h
      cases h
      exact ⟨hsfx, fun _ => by simp, by simp⟩
    rw [if_neg h11] at h
    by_cases h12 : c = '\n'
    · rw [if_pos h12] at h
      cases h
      exact ⟨hsfx, fun _ => by simp, by simp⟩
    rw [if_neg h12] at h
    by_cases h13 : c.isDigit = true
    · rw [if_pos h13] at h
      by_cases hd : digitsToNat (takeDigits [] (c :: cs)).1 ≤ I64_MAX
      · rw [if_pos hd] at h
        cases h
        refine ⟨?_, fun _ => ?_, ?_⟩
        · rw [takeDigits_cons_digit [] c cs h13]
          exact (takeDigits_sfx cs [c]).trans hsfx
        · rw [takeDigits_cons_digit [] c cs h13]
          exact Nat.lt_succ_of_le (takeDigits_sfx cs [c]).length_le
        · intro t ht; simp only [List.mem_singleton] at ht; subst ht; simp
      · rw [if_neg hd] at h; cases h
    rw [if_neg h13] at h
    by_cases h14 : c.isAlpha = true
    · rw [if_pos h14] at h
      by_cases hkw : isKeyword ⟨(scan_identifer [c] cs).1⟩ = true
      · rw [if_pos hkw] at h
        rcases hp2 : (scan_identifer [c] cs).2 with _ | ⟨x, rest⟩
        · simp only [hp2] at h
          cases h
        · simp only [hp2] at h
          cases h
          have hxr : (x :: rest) <:+ cs := by
            rw [← hp2]
            exact scan_identifer_sfx cs [c]
          have hrest : rest <:+ cs := (List.suffix_cons x rest).trans hxr
          refine ⟨hrest.trans hsfx, fun _ => ?_, ?_⟩
          · exact Nat.lt_succ_of_lt (Nat.lt_of_succ_le hxr.length_le)
          · intro t ht; simp only [List.mem_singleton] at ht; subst ht
            simp [keywordOf_ne_eof]
      · rw [if_neg hkw] at h
        cases h
        exact ⟨hid, fun _ => hlid, by
          intro t ht; simp only [List.mem_singleton] at ht; subst ht; simp⟩
    rw [if_neg h14] at h
    cases h

set_option maxHeartbeats 1000000 in
theorem scan_token_panic (st : Scanner) (h : scan_token st = .panic) :
    ∃ c cs, st.rest = c :: cs ∧
      ((c.isDigit = true ∧ I64_MAX < digitsToNat ((takeDigits [] (c :: cs)).1)) ∨
        (c.isAlpha = true ∧ keywordAtEnd (c :: cs) = true)) := by
  rcases hr : st.rest with _ | ⟨c, cs⟩
  · rw [scan_token, hr] at h
    cases h
  · simp only [scan_token, hr] at h
    by_cases h1 : c = '('
    · rw [if_pos h1] at h; cases h
    rw [if_neg h1] at h
    by_cases h2 : c = ')'
    · rw [if_pos h2] at h; cases h
    rw [if_neg h2] at h
    by_cases h3 : c = '{'
    · rw [if_pos h3] at h; cases h
    rw [if_neg h3] at h
    by_cases h4 : c = '}'
    · rw [if_pos h4] at h; cases h
    rw [if_neg h4] at h
    by_cases h5 : c = ','
    · rw [if_pos h5] at h; cases h
    rw [if_neg h5] at h
    by_cases h6 : c = ':'
    · rw [if_pos h6] at h; cases h
    rw [if_neg h6] at h
    by_cases h7 : c = '='
    · rw [if_pos h7] at h; cases h
    rw [if_neg h7] at h
    by_cases h8 : c = '"'
    · rw [if_pos h8] at h
      rcases hscan : scanString st.line cs with _ | ⟨l2, content, r2⟩ <;>
        rw [hscan] at h <;> cases h
    rw [if_neg h8] at h
    by_cases h9 : c = '%'
    · rw [if_pos h9] at h; cases h
    rw [if_neg h9] at h
    by_cases h10 : c = '@'
    · rw [if_pos h10] at h; cases h
    rw [if_neg h10] at h
    by_cases h11 : c = ' ' ∨ c = '\r' ∨ c = '\t'
    · rw [if_pos h11] at h; cases h
    rw [if_neg h11] at h
    by_cases h12 : c = '\n'
    · rw [if_pos h12] at h; cases h
    rw [if_neg h12] at h
    by_cases h13 : c.isDigit = true
    · rw [if_pos h13] at h
      by_cases hd : digitsToNat (takeDigits [] (c :: cs)).1 ≤ I64_MAX
      · rw [if_pos hd] at h; cases h
      · exact ⟨c, cs, rfl, Or.inl ⟨h13, Nat.lt_of_not_le hd⟩⟩
    rw [if_neg h13] at h
    by_cases h14 : c.isAlpha = true
    · rw [if_pos h14] at h
      by_cases hkw : isKeyword ⟨(scan_identifer [c] cs).1⟩ = true
      · rw [if_pos hkw] at h
        rcases hp2 : (scan_identifer [c] cs).2 with _ | ⟨x, rest⟩
        · refine ⟨c, cs, rfl, Or.inr ⟨h14, ?_⟩⟩
          simp [keywordAtEnd, h14, hkw, hp2]
        · simp only [hp2] at h
          cases h
      · rw [if_neg hkw] at h; cases h
    rw [if_neg h14] at h
    cases h


/-! ## Lemmas about the scan_tokens loop -/

theorem scan_loop_no_fuelOut : ∀ (fuel : Nat) (st : Scanner),
    st.rest.length < fuel → scan_loop fuel st ≠ .fuelOut := by
  intro fuel
  induction fuel with
  | zero => intro st h; omega
  | succ n ih =>
    intro st h
    rcases hst : scan_token st with ⟨b, toks1, st3⟩ | e | _
    · rcases b
      · simp [scan_loop, hst]
      · have hdec := (scan_token_ok st true toks1 st3 hst).2.1 rfl
        rcases hloop : scan_loop n st3 with ⟨toks2, st4⟩ | e2 | _ | _
        · simp [scan_loop, hst, hloop]
        · simp [scan_loop, hst, hloop]
        · simp [scan_loop, hst, hloop]
        · exact absurd hloop (ih st3 (by omega))
    · simp [scan_loop, hst]
    · simp [scan_loop, hst]

theorem scan_loop_no_eof : ∀ (fuel : Nat) (st : Scanner) (toks : List Token)
    (st2 : Scanner), scan_loop fuel st = .ok toks st2 →
      ∀ t ∈ toks, t.token_type ≠ .eof := by
  intro fuel
  induction fuel with
  | zero => intro st toks st2 h; rw [scan_loop] at h; cases h
  | succ n ih =>
    intro st toks st2 h
    rcases hst : scan_token st with ⟨b, toks1, st3⟩ | e | _
    · rcases b
      · simp only [scan_loop, hst] at h
        cases h
        exact (scan_token_ok st false toks st2 hst).2.2
      · rcases hloop : scan_loop n st3 with ⟨toks2, st4⟩ | e2 | _ | _
        · simp only [scan_loop, hst, hloop] at h
          cases h
          intro t ht
          rcases List.mem_append.mp ht with h1 | h2
          · exact (scan_token_ok st true toks1 st3 hst).2.2 t h1
          · exact ih st3 toks2 st2 hloop t h2
        · simp only [scan_loop, hst, hloop] at h; cases h
        · simp only [scan_loop, hst, hloop] at h; cases h
        · simp only [scan_loop, hst, hloop] at h; cases h
    · simp only [scan_loop, hst] at h; cases h
    · simp only [scan_loop, hst] at h; cases h

theorem scan_loop_no_panic (l0 : List Char)
    (hfit : ∀ run ∈ digit_runs l0, digitsToNat run ≤ I64_MAX)
    (hkw : ∀ sfx ∈ l0.tails, keywordAtEnd sfx = false) :
    ∀ (fuel : Nat) (st : Scanner), st.rest <:+ l0 → scan_loop fuel st ≠ .panic := by
  intro fuel
  induction fuel with
  | zero => intro st hsfx; simp [scan_loop]
  | succ n ih =>
    intro st hsfx
    rcases hst : scan_token st with ⟨b, toks1, st3⟩ | e | _
    · rcases b
      · simp [scan_loop, hst]
      · have hsub := (scan_token_ok st true toks1 st3 hst).1
        rcases hloop : scan_loop n st3 with ⟨toks2, st4⟩ | e2 | _ | _
        · simp [scan_loop, hst, hloop]
        · simp [scan_loop, hst, hloop]
        · exact absurd hloop (ih st3 (hsub.trans hsfx))
        · simp [scan_loop, hst, hloop]
    · simp [scan_loop, hst]
    · exfalso
      obtain ⟨c, cs, hrest, hcase⟩ := scan_token_panic st hst
      rcases hcase with ⟨hc, hover⟩ | ⟨ha, hend⟩
      · rw [takeDigits_cons_digit [] c cs hc, List.nil_append,
          takeDigits_acc cs [c]] at hover
        obtain ⟨run, hmem, hrsfx⟩ := head_run_mem l0 c cs (hrest ▸ hsfx) hc
        have hle : digitsToNat (c :: (takeDigits [] cs).1) ≤ digitsToNat run :=
          digitsToNat_suffix_le _ _ hrsfx
        have hrun := hfit run hmem
        have hover2 : I64_MAX < digitsToNat (c :: (takeDigits [] cs).1) := by
          simpa using hover
        omega
      · have hmem : (c :: cs) ∈ l0.tails := (List.mem_tails _ _).mpr (hrest ▸ hsfx)
        rw [hkw (c :: cs) hmem] at hend
        cases hend


/-! ## Claims about the scanner -/

/-- C4: at every occurrence of an at-name token in the source text —
function-reference sites as well as definition sites — the scanner emits,
in order, a Function token with that name, a Label token with the same
name, and a Colon token. -/
theorem claim_C4 (st : Scanner) (cs : List Char) (h : st.rest = '@' :: cs) :
    scan_token st = .ok true
      [⟨.function ⟨(scan_identifer [] cs).1⟩, st.line⟩,
       ⟨.label ⟨(scan_identifer [] cs).1⟩, st.line⟩,
       ⟨.colon, st.line⟩]
      ⟨st.line, (scan_identifer [] cs).2⟩ := by
  simp [scan_token, h]

/-- Witness for C4 at the concrete source fragment at-main. -/
theorem claim_C4_witness :
    (⟨0, '@' :: "main".data⟩ : Scanner).rest = '@' :: "main".data ∧
      scan_token ⟨0, '@' :: "main".data⟩ = .ok true
        [⟨.function ⟨(scan_identifer [] "main".data).1⟩, 0⟩,
         ⟨.label ⟨(scan_identifer [] "main".data).1⟩, 0⟩,
         ⟨.colon, 0⟩]
        ⟨0, (scan_identifer [] "main".data).2⟩ :=
  ⟨rfl, claim_C4 ⟨0, '@' :: "main".data⟩ "main".data rfl⟩

/-- C9: a Register token carries the name including the leading percent
sigil, whereas the Function and Label tokens of an at-name carry the name
with the at sigil stripped — the two sigils are treated asymmetrically. -/
theorem claim_C9 (st : Scanner) (cs : List Char) :
    (st.rest = '%' :: cs →
      scan_token st = .ok true
        [⟨.register ⟨'%' :: (scan_identifer [] cs).1⟩, st.line⟩]
        ⟨st.line, (scan_identifer [] cs).2⟩) ∧
    (st.rest = '@' :: cs →
      scan_token st = .ok true
        [⟨.function ⟨(scan_identifer [] cs).1⟩, st.line⟩,
         ⟨.label ⟨(scan_identifer [] cs).1⟩, st.line⟩,
         ⟨.colon, st.line⟩]
        ⟨st.line, (scan_identifer [] cs).2⟩) := by
  constructor
  · intro h
    have hacc := scan_identifer_acc cs ['%']
    simp [scan_token, h, hacc]
  · intro h
    simp [scan_token, h]

/-- Witness for C9 at the concrete source fragments percent-x and
at-x. -/
theorem claim_C9_witness :
    ((⟨0, '%' :: "x".data⟩ : Scanner).rest = '%' :: "x".data ∧
      scan_token ⟨0, '%' :: "x".data⟩ = .ok true
        [⟨.register ⟨'%' :: (scan_identifer [] "x".data).1⟩, 0⟩]
        ⟨0, (scan_identifer [] "x".data).2⟩) ∧
    ((⟨0, '@' :: "x".data⟩ : Scanner).rest = '@' :: "x".data ∧
      scan_token ⟨0, '@' :: "x".data⟩ = .ok true
        [⟨.function ⟨(scan_identifer [] "x".data).1⟩, 0⟩,
         ⟨.label ⟨(scan_identifer [] "x".data).1⟩, 0⟩,
         ⟨.colon, 0⟩]
        ⟨0, (scan_identifer [] "x".data).2⟩) :=
  ⟨⟨rfl, (claim_C9 ⟨0, '%' :: "x".data⟩ "x".data).1 rfl⟩,
   ⟨rfl, (claim_C9 ⟨0, '@' :: "x".data⟩ "x".data).2 rfl⟩⟩

/-- C10: whenever scan_tokens returns Ok, the token list is non-empty,
its final token is EOF, and no other token in the list is EOF. -/
theorem claim_C10 (st : Scanner) (toks : List Token)
    (h : scan_tokens st = .ok toks) :
    toks ≠ [] ∧ (∃ t, toks.getLast? = some t ∧ t.token_type = .eof) ∧
      ∀ t ∈ toks.dropLast, t.token_type ≠ .eof := by
  rcases hloop : scan_loop (st.rest.length + 1) ⟨0, st.rest⟩ with ⟨toks1, st2⟩ | e | _ | _
  all_goals simp only [scan_tokens, hloop] at h
  · cases h
    refine ⟨by simp, ⟨⟨.eof, st2.line⟩, ?_, rfl⟩, ?_⟩
    · rw [List.getLast?_concat]
    · rw [List.dropLast_concat]
      exact scan_loop_no_eof _ _ _ _ hloop
  · cases h
  · cases h
  · cases h

/-- Witness for C10 at the empty source. -/
theorem claim_C10_witness :
    scan_tokens (Scanner.new "") = .ok [⟨.eof, 0⟩] ∧
      ([⟨.eof, 0⟩] : List Token) ≠ [] ∧
      (∃ t, ([⟨.eof, 0⟩] : List Token).getLast? = some t ∧ t.token_type = .eof) ∧
      ∀ t ∈ ([⟨.eof, 0⟩] : List Token).dropLast, t.token_type ≠ .eof :=
  ⟨rfl, claim_C10 (Scanner.new "") [⟨.eof, 0⟩] rfl⟩

/-- C8 as stated is false of the code: the reserved-word arms of
scan_token call make_token, whose unconditional consume() follows no
peek() and panics via unwrap when a reserved word ends the input.  The
digit-free source add satisfies the claim hypothesis — every (vacuous)
maximal digit run fits in i64 — yet scan_tokens panics on it. -/
theorem claim_C8_counterexample :
    (∀ run ∈ digit_runs ("add".data), digitsToNat run ≤ I64_MAX) ∧
      scan_tokens (Scanner.new "add") = .panic := by
  constructor
  · decide
  · decide

/-- C8 (amended): on every source whose maximal ASCII-digit runs all
denote values representable in i64 and no suffix of which begins with a
reserved word running to the end of the input, scan_tokens is total — it
returns Ok with a token list or a LexingError and never panics; both
violating classes are real: an integer literal exceeding the i64 range
panics at the unwrap on str::parse, and a reserved word ending the input
panics at the unguarded consume() inside make_token. -/
theorem claim_C8 :
    (∀ source : String,
        (∀ run ∈ digit_runs source.data, digitsToNat run ≤ I64_MAX) →
        (∀ sfx ∈ source.data.tails, keywordAtEnd sfx = false) →
        (∃ toks, scan_tokens (Scanner.new source) = .ok toks) ∨
          (∃ e, scan_tokens (Scanner.new source) = .err e)) ∧
      scan_tokens (Scanner.new "9223372036854775808") = .panic ∧
      scan_tokens (Scanner.new "le") = .panic := by
  refine ⟨?_, by decide, by decide⟩
  intro source hfit hkw
  rcases hloop : scan_loop ((Scanner.new source).rest.length + 1)
      ⟨0, (Scanner.new source).rest⟩ with ⟨toks1, st2⟩ | e | _ | _
  · exact Or.inl ⟨toks1 ++ [⟨.eof, st2.line⟩], by simp only [scan_tokens, hloop]⟩
  · exact Or.inr ⟨e, by simp only [scan_tokens, hloop]⟩
  · exact absurd hloop
      (scan_loop_no_panic source.data hfit hkw _ ⟨0, (Scanner.new source).rest⟩
        (List.suffix_refl _))
  · exact absurd hloop
      (scan_loop_no_fuelOut _ ⟨0, (Scanner.new source).rest⟩ (by simp))

/-- Witness for the amended C8 at a concrete in-range, keyword-free
source. -/
theorem claim_C8_witness :
    ((∀ run ∈ digit_runs ("ab 12".data), digitsToNat run ≤ I64_MAX) ∧
        (∀ sfx ∈ ("ab 12".data).tails, keywordAtEnd sfx = false)) ∧
      ((∃ toks, scan_tokens (Scanner.new "ab 12") = .ok toks) ∨
        (∃ e, scan_tokens (Scanner.new "ab 12") = .err e)) :=
  ⟨⟨by decide, by decide⟩, claim_C8.1 "ab 12" (by decide) (by decide)⟩


/-! ## Claims about the driver -/

/-- C1: the spec requires that, when the destination directory of the
output file does not exist at write time, the run fails with a reported
IoError naming the path and cause.  The code instead calls
File::create("build/out.asm").unwrap(), a raw panic.  This theorem
evaluates the driver on a valid program with no build directory: the
outcome is the panicked one, not the reported exitErr one. -/
theorem claim_C1 :
    run ⟨["forma", "main.ir"],
         [("main.ir", "define @main \x7b exit 0 \x7d")], []⟩
        "define @main \x7b exit 0 \x7d" =
      .panicked [("main.ir", "define @main \x7b exit 0 \x7d")] := by
  decide

/-- C2: the spec requires a missing command-line argument or an unreadable
source file to be reported as a startup error with path and cause.  The
code instead panics: args[1] is an out-of-bounds index when no argument is
passed, and read_to_string(..).expect(..) panics when the file is
unreadable.  This theorem evaluates main at both failing inputs. -/
theorem claim_C2 :
    main ⟨["forma"], [("main.ir", "define @main \x7b exit 0 \x7d")], ["build"]⟩ =
        .panicked [("main.ir", "define @main \x7b exit 0 \x7d")] ∧
      main ⟨["forma", "missing.ir"], [], ["build"]⟩ = .panicked [] := by
  constructor
  · decide
  · decide

/-- C3: the spec requires every failure of a compilation run to print the
error kind and offending name and exit non-zero, with no stack trace.  The
code reports only lexing errors through report(); a parse failure hits
parser.parse().unwrap() and panics.  This theorem evaluates the driver on
a source that scans cleanly (a lone non-reserved word) but does not parse
as a function definition: the outcome is the panicked one, not the
reported exitErr one. -/
theorem claim_C3 :
    run ⟨["forma", "main.ir"], [("main.ir", "foo")], ["build"]⟩ "foo" =
      .panicked [("main.ir", "foo")] := by
  decide

theorem lookup_setFile (files : List (String × String)) (p v : String) :
    (setFile files p v).lookup p = some v := by
  unfold setFile
  by_cases h : (files.lookup p).isSome
  · rw [if_pos h]
    induction files with
    | nil => simp [List.lookup] at h
    | cons e es ih =>
      obtain ⟨k, w⟩ := e
      by_cases hp : k = p
      · subst hp
        simp only [List.map_cons, if_pos rfl]
        simp [List.lookup]
      · simp only [List.map_cons]
        rw [if_neg (by simpa using hp)]
        have hb : (p == k) = false := beq_eq_false_iff_ne.mpr (fun hh => hp hh.symm)
        have h2 : (es.lookup p).isSome := by
          simp only [List.lookup, hb] at h
          exact h
        have hres := ih h2
        simp only [List.lookup, hb]
        exact hres
  · rw [if_neg h]
    induction files with
    | nil => simp [List.lookup]
    | cons e es ih =>
      obtain ⟨k, w⟩ := e
      by_cases hp : k = p
      · exfalso
        apply h
        subst hp
        simp [List.lookup]
      · have hb : (p == k) = false := beq_eq_false_iff_ne.mpr (fun hh => hp hh.symm)
        have h2 : ¬(es.lookup p).isSome := by
          simp only [List.lookup, hb] at h
          exact h
        have hres := ih h2
        simp only [List.cons_append, List.lookup, hb]
        exact hres

theorem run_exitOk_inv (env : Env) (source : String) (fs : List (String × String))
    (h : run env source = .exitOk fs) :
    ∃ toks ast low reg, scan_tokens (Scanner.new source) = .ok toks ∧
      parse toks = .ok ast ∧ lower ast = .ok low ∧
      allocate_registers low = .ok reg ∧ env.dirs.contains outDir = true ∧
      fs = setFile env.files outPath (generate reg) := by
  rcases hscan : scan_tokens (Scanner.new source) with toks | e | _ | _
  · rcases hparse : parse toks with e | ast
    · simp only [run, hscan, hparse] at h; cases h
    · rcases hlow : lower ast with e | low
      · simp only [run, hscan, hparse, hlow] at h; cases h
      · rcases halloc : allocate_registers low with e | reg
        · simp only [run, hscan, hparse, hlow, halloc] at h; cases h
        · by_cases hdir : env.dirs.contains outDir
          · refine ⟨toks, ast, low, reg, rfl, hparse, hlow, halloc, hdir, ?_⟩
            simp only [run, hscan, hparse, hlow, halloc, hdir, if_true] at h
            cases h
            rfl
          · exfalso
            simp only [run, hscan, hparse, hlow, halloc] at h
            rw [if_neg (by simpa using hdir)] at h
            cases h
  · rcases e with l | l <;> simp only [run, hscan] at h <;> cases h
  · simp only [run, hscan] at h; cases h
  · simp only [run, hscan] at h; cases h


/-- C7: on every successful run, the output file is created fresh — its
final contents are exactly the generated code, replacing any prior
contents at the output path (File::create truncates), and the written code
does not depend on what was previously stored there. -/
theorem claim_C7 (env : Env) (source : String) (fs : List (String × String))
    (h : run env source = .exitOk fs) :
    ∃ code, fs = setFile env.files outPath code ∧ fs.lookup outPath = some code ∧
      ∀ old fs2,
        run ⟨env.argv, setFile env.files outPath old, env.dirs⟩ source = .exitOk fs2 →
        fs2.lookup outPath = some code := by
  obtain ⟨toks, ast, low, reg, hscan, hparse, hlow, halloc, hdir, hfs⟩ :=
    run_exitOk_inv env source fs h
  refine ⟨generate reg, hfs, by rw [hfs]; exact lookup_setFile _ _ _, ?_⟩
  intro old fs2 h2
  obtain ⟨toks2, ast2, low2, reg2, hscan2, hparse2, hlow2, halloc2, hdir2, hfs2⟩ :=
    run_exitOk_inv _ source fs2 h2
  rw [hscan] at hscan2
  cases hscan2
  rw [hparse] at hparse2
  cases hparse2
  rw [hlow] at hlow2
  cases hlow2
  rw [halloc] at halloc2
  cases halloc2
  rw [hfs2]
  exact lookup_setFile _ _ _

/-- Witness for C7: a run over an environment that already holds prior
contents at the output path succeeds and leaves exactly the generated code
there. -/
theorem claim_C7_witness :
    ∃ fs code,
      run ⟨["forma", "a.ir"],
           [("a.ir", "define @main \x7b exit 0 \x7d"), ("build/out.asm", "OLD")],
           ["build"]⟩
          "define @main \x7b exit 0 \x7d" = .exitOk fs ∧
        fs = setFile [("a.ir", "define @main \x7b exit 0 \x7d"),
                      ("build/out.asm", "OLD")] outPath code ∧
        fs.lookup outPath = some code := by
  obtain ⟨code, h1, h2, h3⟩ :=
    claim_C7 ⟨["forma", "a.ir"],
              [("a.ir", "define @main \x7b exit 0 \x7d"), ("build/out.asm", "OLD")],
              ["build"]⟩
      "define @main \x7b exit 0 \x7d" _ rfl
  exact ⟨_, code, rfl, h1, h2⟩

/-- C5: two runs on the same source text, in arbitrary environments, write
byte-identical assembly: the output is exactly the pipeline composition
lowering-allocation-generation applied to the parsed AST, a pure function
of the source with no dependence on ambient state. -/
theorem claim_C5 (env1 env2 : Env) (source : String)
    (fs1 fs2 : List (String × String))
    (h1 : run env1 source = .exitOk fs1) (h2 : run env2 source = .exitOk fs2) :
    fs1.lookup outPath = fs2.lookup outPath ∧
      ∃ toks ast code, scan_tokens (Scanner.new source) = .ok toks ∧
        parse toks = .ok ast ∧ compile ast = .ok code ∧
        fs1.lookup outPath = some code ∧ fs2.lookup outPath = some code := by
  obtain ⟨toks, ast, low, reg, hscan, hparse, hlow, halloc, hdir, hfs⟩ :=
    run_exitOk_inv env1 source fs1 h1
  obtain ⟨toks2, ast2, low2, reg2, hscan2, hparse2, hlow2, halloc2, hdir2, hfs2⟩ :=
    run_exitOk_inv env2 source fs2 h2
  rw [hscan] at hscan2
  cases hscan2
  rw [hparse] at hparse2
  cases hparse2
  rw [hlow] at hlow2
  cases hlow2
  rw [halloc] at halloc2
  cases halloc2
  have hcomp : compile ast = .ok (generate reg) := by
    simp only [compile, hlow, halloc]
  have l1 : fs1.lookup outPath = some (generate reg) := by
    rw [hfs]; exact lookup_setFile _ _ _
  have l2 : fs2.lookup outPath = some (generate reg) := by
    rw [hfs2]; exact lookup_setFile _ _ _
  exact ⟨by rw [l1, l2], toks, ast, generate reg, hscan, hparse, hcomp, l1, l2⟩

/-- Witness for C5: two runs of the same program under different argv,
different extra files (one with stale output-file contents) and different
directory sets produce the same output-file contents. -/
theorem claim_C5_witness :
    ∃ fs1 fs2,
      run ⟨["forma", "a.ir"], [("a.ir", "define @main \x7b exit 0 \x7d")], ["build"]⟩
          "define @main \x7b exit 0 \x7d" = .exitOk fs1 ∧
        run ⟨["other", "b.ir"],
             [("b.ir", "define @main \x7b exit 0 \x7d"), ("build/out.asm", "STALE"),
              ("junk", "x")],
             ["build", "tmp"]⟩
          "define @main \x7b exit 0 \x7d" = .exitOk fs2 ∧
        fs1.lookup outPath = fs2.lookup outPath := by
  refine ⟨_, _, rfl, rfl, ?_⟩
  exact (claim_C5
    ⟨["forma", "a.ir"], [("a.ir", "define @main \x7b exit 0 \x7d")], ["build"]⟩
    ⟨["other", "b.ir"],
     [("b.ir", "define @main \x7b exit 0 \x7d"), ("build/out.asm", "STALE"),
      ("junk", "x")],
     ["build", "tmp"]⟩
    "define @main \x7b exit 0 \x7d" _ _ rfl rfl).1


/-! ## Lemmas about lowering and the C6 claim -/

theorem lowerFunction_ok_no_dangling (f : AstFunction) (lf : LFunction)
    (h : lowerFunction f = .ok lf) : f.danglingTargets = [] := by
  simp only [lowerFunction] at h
  rcases hdup : firstDup ((buildBlocks f.name f.body).map (fun b => b.label)) with _ | l
  · simp only [hdup] at h
    rcases hdang : danglingOf ((buildBlocks f.name f.body).map (fun b => b.label))
        (buildBlocks f.name f.body) with _ | ⟨t, ts⟩
    · unfold AstFunction.danglingTargets
      exact hdang
    · simp only [hdang] at h
      cases h
  · simp only [hdup] at h
    cases h

theorem lowerFunction_error_unknown (f : AstFunction) (e : LoweringError)
    (hnodup : f.hasDupLabel = false) (h : lowerFunction f = .error e) :
    ∃ t, e = .UnknownLabel f.name t ∧ t ∈ f.danglingTargets := by
  have hdup : firstDup ((buildBlocks f.name f.body).map (fun b => b.label)) = none := by
    unfold AstFunction.hasDupLabel at hnodup
    exact Option.not_isSome_iff_eq_none.mp (by simp [hnodup])
  simp only [lowerFunction, hdup] at h
  rcases hdang : danglingOf ((buildBlocks f.name f.body).map (fun b => b.label))
      (buildBlocks f.name f.body) with _ | ⟨t, ts⟩
  · simp only [hdang] at h
    cases h
  · simp only [hdang] at h
    cases h
    refine ⟨t, rfl, ?_⟩
    unfold AstFunction.danglingTargets
    rw [hdang]
    simp

theorem lowerFuns_dangling : ∀ fs : List AstFunction,
    (∀ f ∈ fs, f.hasDupLabel = false) → (∃ f ∈ fs, f.danglingTargets ≠ []) →
    ∃ fn t, lowerFuns fs = .error (.UnknownLabel fn t) ∧
      ∃ f ∈ fs, f.name = fn ∧ t ∈ f.danglingTargets := by
  intro fs
  induction fs with
  | nil => intro _ hd; simp at hd
  | cons f rest ih =>
    intro hnodup hdang
    rcases hlf : lowerFunction f with e | lf
    · obtain ⟨t, rfl, htmem⟩ :=
        lowerFunction_error_unknown f e (hnodup f (by simp)) hlf
      refine ⟨f.name, t, ?_, f, by simp, rfl, htmem⟩
      simp only [lowerFuns, hlf]
    · have hfnone := lowerFunction_ok_no_dangling f lf hlf
      have hdang2 : ∃ g ∈ rest, g.danglingTargets ≠ [] := by
        rcases hdang with ⟨g, hg, hgne⟩
        rcases List.mem_cons.mp hg with rfl | hg2
        · exact absurd hfnone hgne
        · exact ⟨g, hg2, hgne⟩
      obtain ⟨fn, t, hrec, g, hgmem, hgname, hgt⟩ :=
        ih (fun g hg => hnodup g (by simp [hg])) hdang2
      refine ⟨fn, t, ?_, g, by simp [hgmem], hgname, hgt⟩
      simp only [lowerFuns, hlf, hrec]

/-- C6: for every program with a jump or branch whose target label
resolves to no block of the same function (and no duplicate labels, which
are reported first), lowering fails with UnknownLabel naming the function
and a dangling label, and the driver run writes no output file. -/
theorem claim_C6 (ast : Ast)
    (hnodup : ∀ f ∈ ast.functions, f.hasDupLabel = false)
    (hdang : ∃ f ∈ ast.functions, f.danglingTargets ≠ []) :
    (∃ fn t, lower ast = .error (.UnknownLabel fn t) ∧
        ∃ f ∈ ast.functions, f.name = fn ∧ t ∈ f.danglingTargets) ∧
      ∀ env source toks, scan_tokens (Scanner.new source) = .ok toks →
        parse toks = .ok ast →
        (run env source).filesOf = env.files ∧ (run env source).isOk = false := by
  obtain ⟨fn, t, hfuns, hwit⟩ := lowerFuns_dangling ast.functions hnodup hdang
  have hlow : lower ast = .error (.UnknownLabel fn t) := by
    simp only [lower, hfuns]
  refine ⟨⟨fn, t, hlow, hwit⟩, ?_⟩
  intro env source toks hscan hparse
  simp only [run, hscan, hparse, hlow]
  exact ⟨rfl, rfl⟩

/-- Witness for C6: a program whose only function jumps to a label that
no block carries. -/
theorem claim_C6_witness :
    (∀ f ∈ (Ast.mk [⟨"main", [], [Stmt.jmp "nowhere"]⟩]).functions,
        f.hasDupLabel = false) ∧
      (∃ f ∈ (Ast.mk [⟨"main", [], [Stmt.jmp "nowhere"]⟩]).functions,
        f.danglingTargets ≠ []) ∧
      ∃ fn t, lower (Ast.mk [⟨"main", [], [Stmt.jmp "nowhere"]⟩]) =
        .error (.UnknownLabel fn t) := by
  have h := claim_C6 (Ast.mk [⟨"main", [], [Stmt.jmp "nowhere"]⟩])
    (by decide) (by decide)
  obtain ⟨⟨fn, t, hlow, _⟩, _⟩ := h
  exact ⟨by decide, by decide, fn, t, hlow⟩

end Forma
